import Mathlib

/-!
Verification of the shared-state caching and log fan-out layer of
ros2_node_manager (src/optimization.md, src/web/src, src/unnamed).

The Python code of optimization.md §4.2-§4.4 (LogService, CacheService) and
the JavaScript of NodeTree/NotificationContext are shallowly embedded below:
dictionaries become association lists, asyncio interleaving becomes an
explicit scheduler over task phases, and datetime becomes Int timestamps.
-/

/-! ## CacheService (optimization.md §4.3)

`self._cache : Dict[str, tuple[Any, datetime]]` is modelled as an association
list from keys to (value, expiresAt).  Timestamps are integers. -/

/-- `self._cache[key]` / `key in self._cache`: first binding of `k`. -/
def cacheLookup {V : Type} : List (String × V × Int) → String → Option (V × Int)
  | [], _ => none
  | e :: rest, k => if e.1 = k then some e.2 else cacheLookup rest k

/-- `self._cache[key] = (value, expires_at)`: dict assignment, replacing the
binding in place or appending a new one. -/
def setEntry {V : Type} : List (String × V × Int) → String → V → Int → List (String × V × Int)
  | [], k, v, x => [(k, v, x)]
  | e :: rest, k, v, x => if e.1 = k then (k, v, x) :: rest else e :: setEntry rest k v x

/-- The freshness check of `get_or_fetch`: `if key in self._cache: value,
expires_at = self._cache[key]; if datetime.now() < expires_at: return value`. -/
def lookupFresh {V : Type} (c : List (String × V × Int)) (k : String) (now : Int) : Option V :=
  match cacheLookup c k with
  | some (v, exp) => if now < exp then some v else none
  | none => none

/-- `CacheService.invalidate`: `self._cache.pop(key, None)`.  Dict keys are
unique, so removing every binding of `k` from the association list is the
same removal. -/
def invalidate {V : Type} : List (String × V × Int) → String → List (String × V × Int)
  | [], _ => []
  | e :: rest, k => if e.1 = k then invalidate rest k else e :: invalidate rest k

/-- `CacheService.invalidate_prefix`: collects `[k for k in self._cache if
k.startswith(prefix)]` and pops each collected key; the net effect on the
dict is to drop exactly the keys that start with `prefix`. -/
def invalidateByPrefix {V : Type} : List (String × V × Int) → String → List (String × V × Int)
  | [], _ => []
  | e :: rest, p => if e.1.startsWith p then invalidateByPrefix rest p else e :: invalidateByPrefix rest p

/-! ## The `get_or_fetch` concurrency machine (optimization.md §4.3)

`get_or_fetch` is an async method; concurrent callers interleave at its await
points.  Each caller is a task that steps through phases: the initial cache
check, awaiting `async with self._locks[key]`, the re-check under the lock,
awaiting `fetch_fn()`, and returning.  A scheduler (a list of task indices)
chooses which task advances at each point; `asyncio.Lock` creation
(`if key not in self._locks`) is atomic in asyncio and not modelled.
Collaborator fetch outcomes come from an oracle indexed by the key and the
number of previous `fetch_fn` invocations for that key; that invocation count
is ghost instrumentation counting collaborator calls. -/

/-- Result of one `fetch_fn()` call: a value, or a raised error. -/
inductive FetchResult (V E : Type) where
  | ok (v : V)
  | err (e : E)
deriving DecidableEq, Repr

/-- Where a `get_or_fetch` caller stands in the method body. -/
inductive Phase (V E : Type) where
  | start
  | tryLock
  | locked
  | fetching (r : FetchResult V E)
  | done (r : FetchResult V E)
deriving DecidableEq, Repr

/-- One caller of `get_or_fetch(key, fetch_fn, ttl_seconds)`. -/
structure CTask (V E : Type) where
  key : String
  ttl : Int
  phase : Phase V E
deriving DecidableEq, Repr

/-- Number of `fetch_fn` invocations recorded for a key (ghost counter). -/
def getCount : List (String × Nat) → String → Nat
  | [], _ => 0
  | e :: rest, k => if e.1 = k then e.2 else getCount rest k

/-- Record one more `fetch_fn` invocation for a key. -/
def bumpCount : List (String × Nat) → String → List (String × Nat)
  | [], k => [(k, 1)]
  | e :: rest, k => if e.1 = k then (e.1, e.2 + 1) :: rest else e :: bumpCount rest k

/-- Multiplicity of a key in the held-locks list. -/
def countKey : List String → String → Nat
  | [], _ => 0
  | x :: rest, k => (if x = k then 1 else 0) + countKey rest k

/-- Release of `self._locks[key]`: remove one occurrence of the key. -/
def removeOne : List String → String → List String
  | [], _ => []
  | x :: rest, k => if x = k then rest else x :: removeOne rest k

/-- The shared CacheService state plus the states of all concurrent callers.
`now` is the (constant) current time while the callers race; `locks` lists
the keys whose `asyncio.Lock` is currently held. -/
structure CacheSys (V E : Type) where
  now : Int
  cache : List (String × V × Int)
  locks : List String
  nfetch : List (String × Nat)
  oracle : String → Nat → FetchResult V E
  tasks : List (CTask V E)

/-- One scheduler step: task `i` advances through the next piece of the
`get_or_fetch` body.

* `start`: the unlocked check `if key in self._cache ... if datetime.now() <
  expires_at: return value`; on a miss the caller proceeds to the per-key lock.
* `tryLock`: `async with self._locks[key]` — blocks while the lock is held.
* `locked`: the re-check after acquiring the lock; on a hit, return the cached
  value (releasing the lock); on a miss, invoke `fetch_fn()`.
* `fetching`: the awaited fetch resolves.  On success, `self._cache[key] =
  (value, datetime.now() + timedelta(seconds=ttl_seconds))` and the value is
  returned; on failure, the `async with` block releases the lock and the error
  propagates to the caller.  Neither branch caches an error. -/
def cacheStep {V E : Type} (s : CacheSys V E) (i : Nat) : CacheSys V E :=
  match s.tasks.get? i with
  | none => s
  | some t =>
    match t.phase with
    | .start =>
      match lookupFresh s.cache t.key s.now with
      | some v => { s with tasks := s.tasks.set i { t with phase := .done (.ok v) } }
      | none => { s with tasks := s.tasks.set i { t with phase := .tryLock } }
    | .tryLock =>
      if t.key ∈ s.locks then s
      else { s with locks := t.key :: s.locks,
                    tasks := s.tasks.set i { t with phase := .locked } }
    | .locked =>
      match lookupFresh s.cache t.key s.now with
      | some v => { s with locks := removeOne s.locks t.key,
                           tasks := s.tasks.set i { t with phase := .done (.ok v) } }
      | none => { s with nfetch := bumpCount s.nfetch t.key,
                         tasks := s.tasks.set i
                           { t with phase := .fetching (s.oracle t.key (getCount s.nfetch t.key)) } }
    | .fetching r =>
      match r with
      | .ok v => { s with cache := setEntry s.cache t.key v (s.now + t.ttl),
                          locks := removeOne s.locks t.key,
                          tasks := s.tasks.set i { t with phase := .done (.ok v) } }
      | .err e => { s with locks := removeOne s.locks t.key,
                           tasks := s.tasks.set i { t with phase := .done (.err e) } }
    | .done _ => s

/-- Run a whole schedule. -/
def cacheRun {V E : Type} (s : CacheSys V E) (sched : List Nat) : CacheSys V E :=
  sched.foldl cacheStep s

/-- The task holds the key's lock (it is between acquire and release). -/
def holderB {V E : Type} (t : CTask V E) : Bool :=
  match t.phase with
  | .locked => true
  | .fetching _ => true
  | _ => false

/-- The task is in the `locked` phase (acquired, not yet re-checked). -/
def lockedB {V E : Type} (t : CTask V E) : Bool :=
  match t.phase with
  | .locked => true
  | _ => false

/-- The task has an outstanding `fetch_fn()` call. -/
def fetchingB {V E : Type} (t : CTask V E) : Bool :=
  match t.phase with
  | .fetching _ => true
  | _ => false

/-- The task has returned. -/
def doneB {V E : Type} (t : CTask V E) : Bool :=
  match t.phase with
  | .done _ => true
  | _ => false

/-- Number of tasks satisfying a Boolean predicate. -/
def countB {α : Type} (p : α → Bool) : List α → Nat
  | [] => 0
  | x :: l => (if p x then 1 else 0) + countB p l

/-- Two concurrent callers of `get_or_fetch("k", ..., ttl_seconds := 5)` on an
empty cache whose collaborator fetch succeeds with 7. -/
def c1sys : CacheSys Nat Nat :=
  { now := 0, cache := [], locks := [], nfetch := [],
    oracle := fun _ _ => FetchResult.ok 7,
    tasks := [⟨"k", 5, Phase.start⟩, ⟨"k", 5, Phase.start⟩] }

/-- Two concurrent callers of `get_or_fetch("k", ...)` on an empty cache whose
first collaborator fetch raises error 42 and whose second returns 9. -/
def c1cexSys : CacheSys Nat Nat :=
  { now := 0, cache := [], locks := [], nfetch := [],
    oracle := fun _ n => if n = 0 then FetchResult.err 42 else FetchResult.ok 9,
    tasks := [⟨"k", 5, Phase.start⟩, ⟨"k", 5, Phase.start⟩] }

/-- Invariant of the `get_or_fetch` machine when every caller targets key `k`,
no live entry for `k` existed initially, and the collaborator's (single)
fetch for `k` succeeds with `v`: at most one `fetch_fn` call ever happens,
and every result produced is `v`. -/
structure InvC1 {V E : Type} (k : String) (v : V) (s : CacheSys V E) : Prop where
  oracle0 : s.oracle k 0 = .ok v
  keys : ∀ t ∈ s.tasks, t.key = k
  ttls : ∀ t ∈ s.tasks, 0 < t.ttl
  lockCount : countKey s.locks k = countB holderB s.tasks
  holdersLe : countB holderB s.tasks ≤ 1
  nfetchLe : getCount s.nfetch k ≤ 1
  fetchOk : ∀ t ∈ s.tasks, ∀ r, t.phase = .fetching r → r = .ok v
  doneOk : ∀ t ∈ s.tasks, ∀ r, t.phase = .done r → r = .ok v
  zeroCase : getCount s.nfetch k = 0 →
    lookupFresh s.cache k s.now = none ∧
    countB fetchingB s.tasks = 0 ∧ countB doneB s.tasks = 0
  oneCase : getCount s.nfetch k = 1 →
    (countB fetchingB s.tasks = 1 ∧ lookupFresh s.cache k s.now = none) ∨
    (countB fetchingB s.tasks = 0 ∧ lookupFresh s.cache k s.now = some v)

/-- A single caller of `get_or_fetch("k", ..., ttl_seconds := 5)` reading an
entry that was cached at time 0 with TTL 10 and is read at time 11. -/
def c4sys : CacheSys Nat Nat :=
  { now := 11, cache := [("k", 3, 10)], locks := [], nfetch := [],
    oracle := fun _ _ => FetchResult.ok 4,
    tasks := [⟨"k", 5, Phase.start⟩] }

/-- Two concurrent callers of `get_or_fetch("k", ...)` on an empty cache whose
collaborator fetch always raises error 3. -/
def c5sys : CacheSys Nat Nat :=
  { now := 0, cache := [], locks := [], nfetch := [],
    oracle := fun _ _ => FetchResult.err 3,
    tasks := [⟨"k", 5, Phase.start⟩, ⟨"k", 5, Phase.start⟩] }

/-- Two concurrent callers of `get_or_fetch("n", ...)` on an empty cache whose
first collaborator fetch raises error 7 and whose second returns 12. -/
def c5cexSys : CacheSys Nat Nat :=
  { now := 0, cache := [], locks := [], nfetch := [],
    oracle := fun _ n => if n = 0 then FetchResult.err 7 else FetchResult.ok 12,
    tasks := [⟨"n", 9, Phase.start⟩, ⟨"n", 9, Phase.start⟩] }

/-- Invariant of the `get_or_fetch` machine used for claim C4: while no
`fetch_fn` call has been recorded for `k`, no caller of `k` has an outstanding
fetch or has returned, and no live entry for `k` exists. -/
structure InvC4 {V E : Type} (k : String) (s : CacheSys V E) : Prop where
  keys : ∀ t ∈ s.tasks, t.key = k
  count0 : getCount s.nfetch k = 0 →
    countB fetchingB s.tasks = 0 ∧ countB doneB s.tasks = 0 ∧
    lookupFresh s.cache k s.now = none

/-- Invariant of the `get_or_fetch` machine when every caller targets key `k`,
no live entry for `k` exists, and every collaborator fetch for `k` fails: the
store is never written, errors are never cached, and the number of `fetch_fn`
calls equals the number of outstanding-or-returned callers — each caller that
returns performed its own fetch and received an error. -/
structure InvC5 {V E : Type} (k : String) (c0 : List (String × V × Int))
    (s : CacheSys V E) : Prop where
  oracleErr : ∀ n, ∃ e, s.oracle k n = FetchResult.err e
  keys : ∀ t ∈ s.tasks, t.key = k
  cacheEq : s.cache = c0
  freshNone : lookupFresh s.cache k s.now = none
  lockCount : countKey s.locks k = countB holderB s.tasks
  countEq : getCount s.nfetch k = countB fetchingB s.tasks + countB doneB s.tasks
  fetchErr : ∀ t ∈ s.tasks, ∀ r, t.phase = Phase.fetching r → ∃ e, r = FetchResult.err e
  doneErr : ∀ t ∈ s.tasks, ∀ r, t.phase = Phase.done r → ∃ e, r = FetchResult.err e

/-! ## LogService and the logs websocket (optimization.md §4.1, §4.2)

`LogService` holds `self.buffer = deque(maxlen=1000)` and `self.subscribers :
Dict[str, Callable]`.  Each subscriber callback is the
`send_if_matches(websocket, msg, node_patterns, log_levels)` closure that
`logs_websocket` registers; the websocket connection behind it is modelled as
a sink recording what the client received.  `send_if_matches` itself is
referenced by `logs_websocket` but missing from the repository, so its
matching rule is modelled from the spec (§4.4 Filter matching). -/

/-- An ordered severity, ranked by `rank` (the spec's total order). -/
inductive LogLevel where
  | debug
  | info
  | warn
  | error
  | fatal
deriving DecidableEq, Repr

/-- Position of a severity in the total order over severities. -/
def LogLevel.rank : LogLevel → Nat
  | .debug => 0
  | .info => 1
  | .warn => 2
  | .error => 3
  | .fatal => 4

/-- One record of the `/rosout` stream. -/
structure LogRecord where
  timestamp : Int
  sourceName : String
  level : LogLevel
  message : String
deriving DecidableEq, Repr

/-- `deque(maxlen=cap).append(x)`: append, evicting from the front so that at
most `cap` elements remain (for a deque that never exceeded `cap`). -/
def ringAppend {α : Type} (cap : Nat) (buf : List α) (x : α) : List α :=
  (buf ++ [x]).drop (buf.length + 1 - cap)

/-- Modelled from the spec: the filter state of one subscription
(`node_patterns` and the level floor of the missing `send_if_matches`);
an empty pattern list is the `nodes=None` case and matches every source. -/
structure SubFilter where
  namePatterns : List String
  minLevel : LogLevel
deriving DecidableEq, Repr

/-- Modelled from the spec: one glob-like pattern matches a source that
starts with it, a trailing `*` wildcard standing for any suffix. -/
def patternMatches (p source : String) : Bool :=
  if p.endsWith "*" then source.startsWith (p.dropRight 1) else source.startsWith p

/-- Modelled from the spec: an empty pattern set matches every source; a
non-empty set matches when the source starts with or wildcard-matches at
least one pattern in the set. -/
def nameMatches (patterns : List String) (source : String) : Bool :=
  patterns.isEmpty || patterns.any (fun p => patternMatches p source)

/-- Modelled from the spec: the level filter is a minimum-severity floor
under the total order over severities. -/
def levelMatches (minLevel lv : LogLevel) : Bool :=
  decide (minLevel.rank ≤ lv.rank)

/-- Modelled from the spec: a record passes a subscription filter iff its
source matches the name patterns and its level is at or above the floor. -/
def filterMatches (f : SubFilter) (r : LogRecord) : Bool :=
  nameMatches f.namePatterns r.sourceName && levelMatches f.minLevel r.level

/-- A subscriber's websocket, as the callback sees it: `ok` says whether
`websocket.send` succeeds, `delivered` is what the client received. -/
structure Sink where
  ok : Bool
  delivered : List LogRecord
deriving DecidableEq, Repr

/-- One live subscription: its filter and its websocket sink. -/
structure SubConn where
  filter : SubFilter
  sink : Sink
deriving DecidableEq, Repr

/-- The sink accepts one record. -/
def pushRecord (c : SubConn) (r : LogRecord) : SubConn :=
  { c with sink := { c.sink with delivered := c.sink.delivered ++ [r] } }

/-- Modelled from the spec: `send_if_matches(websocket, msg, node_patterns,
log_levels)` sends the record to the websocket iff the filter matches it; a
send on a dead websocket raises (the spec's `SinkUnresponsive`). -/
def sendIfMatches (c : SubConn) (r : LogRecord) : Except Unit SubConn :=
  if filterMatches c.filter r then
    if c.sink.ok then Except.ok (pushRecord c r) else Except.error ()
  else Except.ok c

/-- `LogService` state: the ring buffer and the subscriber registry
(`self.subscribers : Dict[str, Callable]`, insertion-ordered). -/
structure LogState where
  buffer : List LogRecord
  subscribers : List (String × SubConn)
deriving DecidableEq, Repr

/-- One iteration of `LogService._collect_logs` for one record of the
`/rosout` stream: `self.buffer.append(log_entry)` (deque maxlen=1000), then
for every subscriber `await callback(log_entry)` inside `try ... except:
pass` — a raising callback is ignored, nothing else about that subscriber
changes, and the loop continues with the next subscriber. -/
def collectOne (st : LogState) (r : LogRecord) : LogState :=
  { buffer := ringAppend 1000 st.buffer r,
    subscribers := st.subscribers.map (fun e =>
      match sendIfMatches e.2 r with
      | Except.ok c2 => (e.1, c2)
      | Except.error _ => (e.1, e.2)) }

/-- `LogService.subscribe(callback)`: store the callback under a fresh uuid,
return the id.  Nothing is sent to the new subscriber. -/
def subscribe (st : LogState) (newId : String) (c : SubConn) : LogState × String :=
  ({ st with subscribers := st.subscribers ++ [(newId, c)] }, newId)

/-- `LogService.get_recent(count=100)`: `list(self.buffer)[-count:]`, the last
`count` buffered records — all of them when `count = 0` (Python slice
semantics for `[-0:]`). -/
def get_recent (st : LogState) (count : Nat) : List LogRecord :=
  if count = 0 then st.buffer else st.buffer.drop (st.buffer.length - count)

/-- The connection path of `logs_websocket` (optimization.md §4.1): accept
the websocket, parse `nodes`/`level` into the filter, and
`log_service.subscribe` a `send_if_matches` callback over a fresh sink.  No
backlog is sent: this path never calls `get_recent`. -/
def wsConnect (st : LogState) (newId : String) (f : SubFilter) (sinkOk : Bool) :
    LogState × String :=
  subscribe st newId { filter := f, sink := { ok := sinkOk, delivered := [] } }

/-- A live, healthy subscription with the spec's example filter
`{patterns: ["/sensing"], minLevel: WARN}`. -/
def c2state : LogState :=
  { buffer := [],
    subscribers := [("a", { filter := { namePatterns := ["/sensing"], minLevel := LogLevel.warn },
                            sink := { ok := true, delivered := [] } })] }

/-- A record from `/sensing/lidar/top` at ERROR severity. -/
def c2record : LogRecord :=
  { timestamp := 7, sourceName := "/sensing/lidar/top", level := LogLevel.error,
    message := "overheat" }

/-- A LogService state with three buffered records and no subscribers. -/
def c3state : LogState :=
  { buffer := [{ timestamp := 1, sourceName := "/a", level := LogLevel.warn, message := "m1" },
               { timestamp := 2, sourceName := "/b", level := LogLevel.warn, message := "m2" },
               { timestamp := 3, sourceName := "/c", level := LogLevel.warn, message := "m3" }],
    subscribers := [] }

/-- A single subscription whose filter matches everything but whose websocket
send fails. -/
def c7state : LogState :=
  { buffer := [],
    subscribers := [("s1", { filter := { namePatterns := [], minLevel := LogLevel.debug },
                             sink := { ok := false, delivered := [] } })] }

/-- Like `c7state` plus a second, healthy match-all subscription. -/
def c7state2 : LogState :=
  { buffer := [],
    subscribers := [("s1", { filter := { namePatterns := [], minLevel := LogLevel.debug },
                             sink := { ok := false, delivered := [] } }),
                    ("s2", { filter := { namePatterns := [], minLevel := LogLevel.debug },
                             sink := { ok := true, delivered := [] } })] }

/-- A record from `/sensing/lidar` at ERROR severity. -/
def c7record : LogRecord :=
  { timestamp := 5, sourceName := "/sensing/lidar", level := LogLevel.error,
    message := "boom" }

/-! ## buildTree (src/unnamed/part_006, NodeTree component)

`buildTree(nodes)` groups a flat node list into a namespace tree (children
keyed by path segment, JS objects preserving insertion order — an association
list here) and then `calcCounts` fills in `count`, `activeCount` and
`lifecycleCount` bottom-up. -/

/-- One flat node as the component receives it.  `ntype` embeds the JS field
`type` (a Lean keyword). -/
structure RNode where
  name : String
  status : String
  ntype : String
deriving DecidableEq, Repr

/-- A namespace tree node: `{ children: {}, nodes: [], count: 0,
activeCount: 0, lifecycleCount: 0 }`. -/
inductive NamespaceTree : Type where
  | mk (children : List (String × NamespaceTree)) (nodes : List RNode)
       (count activeCount lifecycleCount : Nat)

/-- The `children` field. -/
def NamespaceTree.children : NamespaceTree → List (String × NamespaceTree)
  | .mk cs _ _ _ _ => cs

/-- The `nodes` field. -/
def NamespaceTree.nodes : NamespaceTree → List RNode
  | .mk _ ns _ _ _ => ns

/-- The `count` field. -/
def NamespaceTree.count : NamespaceTree → Nat
  | .mk _ _ c _ _ => c

/-- The `activeCount` field. -/
def NamespaceTree.activeCount : NamespaceTree → Nat
  | .mk _ _ _ a _ => a

/-- The `lifecycleCount` field. -/
def NamespaceTree.lifecycleCount : NamespaceTree → Nat
  | .mk _ _ _ _ lc => lc

/-- A fresh namespace node, all counts zero. -/
def emptyNT : NamespaceTree := .mk [] [] 0 0 0

/-- `node.name.split('/').filter(Boolean)` up to `parts.length - 1`: the
namespace path under which the node is pushed (the last segment is the node's
own name). -/
def nodePath (n : RNode) : List String :=
  ((n.name.splitOn "/").filter (fun s => !s.isEmpty)).dropLast

mutual

/-- The placement loop of `buildTree`: walk `parts`, creating missing child
namespaces, and push the node at the end of the walk. -/
def insertAt : List String → RNode → NamespaceTree → NamespaceTree
  | [], n, .mk cs ns c a lc => .mk cs (ns ++ [n]) c a lc
  | p :: ps, n, .mk cs ns c a lc => .mk (insertChild p ps n cs) ns c a lc
termination_by ps _ _ => (ps.length, 0)

/-- Enter child `p` (creating `{children: {}, nodes: [], counts 0}` when
absent) and continue inserting along `ps`. -/
def insertChild : String → List String → RNode → List (String × NamespaceTree) →
    List (String × NamespaceTree)
  | p, ps, n, [] => [(p, insertAt ps n emptyNT)]
  | p, ps, n, e :: rest =>
    if e.1 = p then (e.1, insertAt ps n e.2) :: rest
    else e :: insertChild p ps n rest
termination_by _ ps _ cs => (ps.length, cs.length + 1)

end

/-- `n.status === 'active'`. -/
def isActive (n : RNode) : Bool := n.status == "active"

/-- `n.type === 'lifecycle' && n.status === 'active'`. -/
def isLifecycleActive (n : RNode) : Bool := (n.ntype == "lifecycle") && isActive n

/-- `node.nodes.filter(n => n.status === 'active').length`. -/
def countActive (ns : List RNode) : Nat := (ns.filter isActive).length

/-- `node.nodes.filter(n => n.type === 'lifecycle' && n.status === 'active').length`. -/
def countLifecycle (ns : List RNode) : Nat := (ns.filter isLifecycleActive).length

/-- Sum of the children's `count` fields. -/
def sumCounts : List (String × NamespaceTree) → Nat
  | [] => 0
  | e :: rest => e.2.count + sumCounts rest

/-- Sum of the children's `activeCount` fields. -/
def sumActive : List (String × NamespaceTree) → Nat
  | [] => 0
  | e :: rest => e.2.activeCount + sumActive rest

/-- Sum of the children's `lifecycleCount` fields. -/
def sumLifecycle : List (String × NamespaceTree) → Nat
  | [] => 0
  | e :: rest => e.2.lifecycleCount + sumLifecycle rest

mutual

/-- `calcCounts(node)`: recurse into every child first, then set `count`,
`activeCount`, `lifecycleCount` to own-nodes tallies plus the children's
(freshly computed) counts. -/
def calcCounts : NamespaceTree → NamespaceTree
  | .mk cs ns _ _ _ =>
    let cs2 := calcCountsChildren cs
    .mk cs2 ns
      (ns.length + sumCounts cs2)
      (countActive ns + sumActive cs2)
      (countLifecycle ns + sumLifecycle cs2)

/-- `for (const child of Object.values(node.children)) calcCounts(child)`. -/
def calcCountsChildren : List (String × NamespaceTree) → List (String × NamespaceTree)
  | [] => []
  | e :: rest => (e.1, calcCounts e.2) :: calcCountsChildren rest

end

mutual

/-- All flat nodes stored in a subtree, own nodes first. -/
def allNodes : NamespaceTree → List RNode
  | .mk cs ns _ _ _ => ns ++ allNodesChildren cs

/-- All flat nodes stored under a child list. -/
def allNodesChildren : List (String × NamespaceTree) → List RNode
  | [] => []
  | e :: rest => allNodes e.2 ++ allNodesChildren rest

end

mutual

/-- Every node of the tree carries correct counts: `count` is the number of
subtree nodes, `activeCount` the number of active subtree nodes,
`lifecycleCount` the number of active lifecycle subtree nodes. -/
def countsCorrect : NamespaceTree → Prop
  | .mk cs ns c a lc =>
    (c = (ns ++ allNodesChildren cs).length ∧
     a = ((ns ++ allNodesChildren cs).filter isActive).length ∧
     lc = ((ns ++ allNodesChildren cs).filter isLifecycleActive).length) ∧
    countsCorrectChildren cs

/-- `countsCorrect` for every tree in a child list. -/
def countsCorrectChildren : List (String × NamespaceTree) → Prop
  | [] => True
  | e :: rest => countsCorrect e.2 ∧ countsCorrectChildren rest

end

mutual

/-- At every node of the tree, `lifecycleCount ≤ activeCount ≤ count`. -/
def countsMono : NamespaceTree → Prop
  | .mk cs _ c a lc => (lc ≤ a ∧ a ≤ c) ∧ countsMonoChildren cs

/-- `countsMono` for every tree in a child list. -/
def countsMonoChildren : List (String × NamespaceTree) → Prop
  | [] => True
  | e :: rest => countsMono e.2 ∧ countsMonoChildren rest

end

/-- `buildTree(nodes)`: place every node under its namespace path in input
order, then run `calcCounts` from the root. -/
def buildTree (nodes : List RNode) : NamespaceTree :=
  calcCounts (List.foldl (fun t n => insertAt (nodePath n) n t) emptyNT nodes)

/-! ## NotificationProvider (src/web/src/contexts/NotificationContext.jsx)

`notifications` is the React state list; `timersRef` maps notification ids to
their pending auto-dismiss timers and is modelled as the list of ids holding
a timer (ids are fresh uuids, so `Map.set` is an append and `Map.delete` a
filter). -/

/-- One toast notification (`{...notification, id, timestamp, severity}`). -/
structure Notification where
  nid : String
  timestamp : Int
  severity : String
  title : String
  message : String
deriving DecidableEq, Repr

/-- `const MAX_NOTIFICATIONS = 5`. -/
def MAX_NOTIFICATIONS : Nat := 5

/-- The provider state: the notification list and the ids with a live
auto-dismiss timer. -/
structure NotifState where
  notifications : List Notification
  timers : List String
deriving DecidableEq, Repr

/-- The `while (updated.length >= MAX_NOTIFICATIONS)` loop of
`addNotification`: take the oldest notification off the front, cancelling
(`clearTimeout` + `timersRef.current.delete`) its timer when present. -/
def evictLoop (l : List Notification) (tm : List String) :
    List Notification × List String :=
  if MAX_NOTIFICATIONS ≤ l.length then
    match l with
    | [] => ([], tm)
    | o :: rest => evictLoop rest (tm.filter (fun x => decide (x ≠ o.nid)))
  else (l, tm)
termination_by l.length

/-- Cancel the timers of the listed ids, in order (the cumulative effect of
the loop's `clearTimeout` + delete calls). -/
def removeIds : List String → List String → List String
  | [], tm => tm
  | i :: is, tm => removeIds is (tm.filter (fun x => decide (x ≠ i)))

/-- `addNotification`: evict oldest while the queue is full, append the new
notification at the end, then register its auto-dismiss timer. -/
def addNotification (s : NotifState) (n : Notification) : NotifState :=
  let p := evictLoop s.notifications s.timers
  { notifications := p.1 ++ [n], timers := p.2 ++ [n.nid] }

/-- `removeNotification(id)`: clear the timer when present and filter the
notification out of the list. -/
def removeNotification (s : NotifState) (id : String) : NotifState :=
  { notifications := s.notifications.filter (fun x => decide (x.nid ≠ id)),
    timers := s.timers.filter (fun x => decide (x ≠ id)) }

/-- One call a client can make on the provider. -/
inductive NotifOp where
  | add (n : Notification)
  | remove (id : String)

/-- Apply one call. -/
def notifStep (s : NotifState) : NotifOp → NotifState
  | .add n => addNotification s n
  | .remove id => removeNotification s id

/-- The provider state after a call sequence, starting from the initial
empty state (`useState([])`, empty timer map). -/
def notifRun (ops : List NotifOp) : NotifState :=
  List.foldl notifStep { notifications := [], timers := [] } ops

/-! ## Theorems -/

theorem get?_mem' {α : Type} : ∀ {l : List α} {i : Nat} {a : α}, l.get? i = some a → a ∈ l
  | x :: _, 0, _, h => by
    simp only [List.get?] at h
    exact (Option.some.injEq _ _ ▸ h) ▸ List.mem_cons_self x _
  | _ :: l, i + 1, a, h => List.mem_cons_of_mem _ (get?_mem' (l := l) h)

theorem mem_set' {α : Type} : ∀ {l : List α} {i : Nat} {b x : α}, x ∈ l.set i b → x = b ∨ x ∈ l
  | [], _, _, _, h => Or.inr h
  | _ :: _, 0, _, _, h => by
    rcases List.mem_cons.mp h with h1 | h2
    · exact Or.inl h1
    · exact Or.inr (List.mem_cons_of_mem _ h2)
  | y :: l, i + 1, b, x, h => by
    rcases List.mem_cons.mp h with h1 | h2
    · exact Or.inr (h1 ▸ List.mem_cons_self y l)
    · rcases mem_set' (l := l) h2 with h3 | h4
      · exact Or.inl h3
      · exact Or.inr (List.mem_cons_of_mem _ h4)

theorem countB_set {α : Type} (p : α → Bool) :
    ∀ {l : List α} {i : Nat} {a : α}, l.get? i = some a → ∀ b : α,
      countB p (l.set i b) + (if p a then 1 else 0) = countB p l + (if p b then 1 else 0)
  | x :: l, 0, a, h, b => by
    simp only [List.get?] at h
    cases h
    simp only [List.set, countB]
    omega
  | x :: l, i + 1, a, h, b => by
    have ih := countB_set p (l := l) (i := i) h b
    simp only [List.set, countB]
    omega

theorem countB_pos {α : Type} (p : α → Bool) :
    ∀ {l : List α} {a : α}, a ∈ l → p a = true → 1 ≤ countB p l
  | x :: l, a, ha, hp => by
    rcases List.mem_cons.mp ha with h1 | h2
    · subst h1
      simp [countB, hp]
    · have := countB_pos p h2 hp
      simp only [countB]
      omega

theorem countB_eq_zero {α : Type} {p : α → Bool} :
    ∀ {l : List α}, (∀ a ∈ l, p a = false) → countB p l = 0
  | [], _ => rfl
  | x :: l, h => by
    have hx := h x (List.mem_cons_self x l)
    have := countB_eq_zero (l := l) (fun a ha => h a (List.mem_cons_of_mem x ha))
    simp [countB, hx, this]

theorem countB_eq_length {α : Type} {p : α → Bool} :
    ∀ {l : List α}, (∀ a ∈ l, p a = true) → countB p l = l.length
  | [], _ => rfl
  | x :: l, h => by
    have hx := h x (List.mem_cons_self x l)
    have := countB_eq_length (l := l) (fun a ha => h a (List.mem_cons_of_mem x ha))
    simp only [countB, hx, if_pos, this, List.length_cons]
    omega

theorem countB_holder_split {V E : Type} :
    ∀ l : List (CTask V E), countB holderB l = countB lockedB l + countB fetchingB l
  | [] => rfl
  | t :: l => by
    have ih := countB_holder_split l
    have ht : (if holderB t then 1 else 0) =
        (if lockedB t then 1 else 0) + (if fetchingB t then 1 else 0) := by
      cases hp : t.phase <;> simp [holderB, lockedB, fetchingB, hp]
    simp only [countB]
    omega

theorem countB_set_eq {α : Type} (p : α → Bool) {l : List α} {i : Nat} {a : α}
    (h : l.get? i = some a) (b : α) (ha : p a = false) (hb : p b = false) :
    countB p (l.set i b) = countB p l := by
  have hs := countB_set p h b
  simp [ha, hb] at hs
  omega

theorem countB_set_add {α : Type} (p : α → Bool) {l : List α} {i : Nat} {a : α}
    (h : l.get? i = some a) (b : α) (ha : p a = false) (hb : p b = true) :
    countB p (l.set i b) = countB p l + 1 := by
  have hs := countB_set p h b
  simp [ha, hb] at hs
  omega

theorem countB_set_sub {α : Type} (p : α → Bool) {l : List α} {i : Nat} {a : α}
    (h : l.get? i = some a) (b : α) (ha : p a = true) (hb : p b = false) :
    countB p (l.set i b) + 1 = countB p l := by
  have hs := countB_set p h b
  simp [ha, hb] at hs
  omega

theorem countB_set_keep {α : Type} (p : α → Bool) {l : List α} {i : Nat} {a : α}
    (h : l.get? i = some a) (b : α) (hab : p a = p b) :
    countB p (l.set i b) = countB p l := by
  have hs := countB_set p h b
  rw [hab] at hs
  omega

theorem forall_mem_set {α : Type} {l : List α} {i : Nat} {b : α} (P : α → Prop)
    (hold : ∀ u ∈ l, P u) (hnew : P b) : ∀ u ∈ l.set i b, P u := by
  intro u hu
  rcases mem_set' hu with rfl | hu'
  · exact hnew
  · exact hold u hu'

theorem countKey_removeOne :
    ∀ (l : List String) (k : String), countKey (removeOne l k) k = countKey l k - 1
  | [], _ => rfl
  | x :: l, k => by
    by_cases h : x = k
    · simp [removeOne, countKey, h]
    · have := countKey_removeOne l k
      simp only [removeOne, countKey, if_neg h]
      omega

theorem countKey_eq_zero_iff : ∀ (l : List String) (k : String), countKey l k = 0 ↔ k ∉ l
  | [], k => by simp [countKey]
  | x :: l, k => by
    have := countKey_eq_zero_iff l k
    by_cases h : x = k
    · subst h
      simp [countKey, List.mem_cons]
    · have hkx : ¬k = x := fun hk => h hk.symm
      simp [countKey, if_neg h, this, List.mem_cons, hkx]

theorem getCount_bump : ∀ (m : List (String × Nat)) (k : String),
    getCount (bumpCount m k) k = getCount m k + 1
  | [], k => by simp [bumpCount, getCount]
  | e :: m, k => by
    by_cases h : e.1 = k
    · simp [bumpCount, getCount, h]
    · have := getCount_bump m k
      simp [bumpCount, getCount, h, this]

theorem cacheLookup_setEntry {V : Type} :
    ∀ (c : List (String × V × Int)) (k : String) (v : V) (x : Int),
      cacheLookup (setEntry c k v x) k = some (v, x)
  | [], k, v, x => by simp [setEntry, cacheLookup]
  | e :: c, k, v, x => by
    by_cases h : e.1 = k
    · simp [setEntry, cacheLookup, h]
    · have := cacheLookup_setEntry c k v x
      simp [setEntry, cacheLookup, h, this]

theorem lookupFresh_setEntry {V : Type} (c : List (String × V × Int)) (k : String)
    (v : V) (x : Int) (now : Int) :
    lookupFresh (setEntry c k v x) k now = if now < x then some v else none := by
  simp [lookupFresh, cacheLookup_setEntry]

theorem cacheStep_tasks_length {V E : Type} (s : CacheSys V E) (i : Nat) :
    (cacheStep s i).tasks.length = s.tasks.length := by
  unfold cacheStep
  cases hg : s.tasks.get? i with
  | none => rfl
  | some t =>
    cases hp : t.phase with
    | start =>
      simp only [hp]
      cases hf : lookupFresh s.cache t.key s.now <;> simp [List.length_set]
    | tryLock =>
      simp only [hp]
      by_cases hm : t.key ∈ s.locks
      · simp [hm]
      · simp [hm, List.length_set]
    | locked =>
      simp only [hp]
      cases hf : lookupFresh s.cache t.key s.now <;> simp [List.length_set]
    | fetching r =>
      simp only [hp]
      cases r <;> simp [List.length_set]
    | done r => simp only [hp]

theorem cacheRun_tasks_length {V E : Type} (s : CacheSys V E) :
    ∀ sched : List Nat, (cacheRun s sched).tasks.length = s.tasks.length
  | [] => rfl
  | i :: sched => by
    have h1 := cacheStep_tasks_length s i
    have h2 := cacheRun_tasks_length (cacheStep s i) sched
    simpa [cacheRun] using h2.trans h1

theorem invC1_step {V E : Type} {k : String} {v : V} {s : CacheSys V E}
    (h : InvC1 k v s) (i : Nat) : InvC1 k v (cacheStep s i) := by
  unfold cacheStep
  cases hg : s.tasks.get? i with
  | none => exact h
  | some t =>
  have htmem : t ∈ s.tasks := get?_mem' hg
  have hkey : t.key = k := h.keys t htmem
  have httl : 0 < t.ttl := h.ttls t htmem
  have hnle := h.nfetchLe
  cases hp : t.phase with
  | start =>
    simp only [hp]
    cases hf : lookupFresh s.cache t.key s.now with
    | some w =>
      dsimp only
      rw [hkey] at hf
      have hn1 : getCount s.nfetch k = 1 := by
        by_contra hne
        have hn0 : getCount s.nfetch k = 0 := by omega
        have hz := (h.zeroCase hn0).1
        rw [hz] at hf
        simp at hf
      have hB : countB fetchingB s.tasks = 0 ∧ lookupFresh s.cache k s.now = some v := by
        rcases h.oneCase hn1 with ⟨_, hnone⟩ | hB
        · rw [hnone] at hf
          simp at hf
        · exact hB
      have hw : w = v := by
        have h2 := hB.2
        rw [hf] at h2
        exact Option.some.inj h2
      subst hw
      have ehT : holderB t = false := by simp [holderB, hp]
      have ehN : holderB ({ t with phase := Phase.done (FetchResult.ok w) } : CTask V E) = false := rfl
      have efT : fetchingB t = false := by simp [fetchingB, hp]
      have efN : fetchingB ({ t with phase := Phase.done (FetchResult.ok w) } : CTask V E) = false := rfl
      refine ⟨h.oracle0, ?_, ?_, ?_, ?_, h.nfetchLe, ?_, ?_, ?_, ?_⟩
      · exact forall_mem_set _ h.keys hkey
      · exact forall_mem_set _ h.ttls httl
      · rw [countB_set_eq holderB hg _ ehT ehN]
        exact h.lockCount
      · rw [countB_set_eq holderB hg _ ehT ehN]
        exact h.holdersLe
      · refine forall_mem_set _ h.fetchOk ?_
        intro r hr
        simp at hr
      · refine forall_mem_set _ h.doneOk ?_
        intro r hr
        simp only [Phase.done.injEq] at hr
        exact hr.symm
      · intro h0
        have h0x : getCount s.nfetch k = 0 := h0
        exact absurd h0x (by omega)
      · intro _
        refine Or.inr ⟨?_, hB.2⟩
        rw [countB_set_eq fetchingB hg _ efT efN]
        exact hB.1
    | none =>
      dsimp only
      have ehT : holderB t = false := by simp [holderB, hp]
      have ehN : holderB ({ t with phase := Phase.tryLock } : CTask V E) = false := rfl
      have efT : fetchingB t = false := by simp [fetchingB, hp]
      have efN : fetchingB ({ t with phase := Phase.tryLock } : CTask V E) = false := rfl
      have edT : doneB t = false := by simp [doneB, hp]
      have edN : doneB ({ t with phase := Phase.tryLock } : CTask V E) = false := rfl
      refine ⟨h.oracle0, ?_, ?_, ?_, ?_, h.nfetchLe, ?_, ?_, ?_, ?_⟩
      · exact forall_mem_set _ h.keys hkey
      · exact forall_mem_set _ h.ttls httl
      · rw [countB_set_eq holderB hg _ ehT ehN]
        exact h.lockCount
      · rw [countB_set_eq holderB hg _ ehT ehN]
        exact h.holdersLe
      · refine forall_mem_set _ h.fetchOk ?_
        intro r hr
        simp at hr
      · refine forall_mem_set _ h.doneOk ?_
        intro r hr
        simp at hr
      · intro h0
        have hz := h.zeroCase h0
        refine ⟨hz.1, ?_, ?_⟩
        · rw [countB_set_eq fetchingB hg _ efT efN]
          exact hz.2.1
        · rw [countB_set_eq doneB hg _ edT edN]
          exact hz.2.2
      · intro h1
        rcases h.oneCase h1 with ⟨hfc, hnone⟩ | ⟨hfc, hsome⟩
        · refine Or.inl ⟨?_, hnone⟩
          rw [countB_set_eq fetchingB hg _ efT efN]
          exact hfc
        · refine Or.inr ⟨?_, hsome⟩
          rw [countB_set_eq fetchingB hg _ efT efN]
          exact hfc
  | tryLock =>
    simp only [hp]
    by_cases hm : t.key ∈ s.locks
    · simp only [if_pos hm]
      exact h
    · simp only [if_neg hm]
      rw [hkey] at hm
      have hck : countKey s.locks k = 0 := (countKey_eq_zero_iff s.locks k).mpr hm
      have hh0 : countB holderB s.tasks = 0 := by
        have := h.lockCount
        omega
      have ehT : holderB t = false := by simp [holderB, hp]
      have ehN : holderB ({ t with phase := Phase.locked } : CTask V E) = true := rfl
      have efT : fetchingB t = false := by simp [fetchingB, hp]
      have efN : fetchingB ({ t with phase := Phase.locked } : CTask V E) = false := rfl
      have edT : doneB t = false := by simp [doneB, hp]
      have edN : doneB ({ t with phase := Phase.locked } : CTask V E) = false := rfl
      refine ⟨h.oracle0, ?_, ?_, ?_, ?_, h.nfetchLe, ?_, ?_, ?_, ?_⟩
      · exact forall_mem_set _ h.keys hkey
      · exact forall_mem_set _ h.ttls httl
      · show countKey (t.key :: s.locks) k = _
        rw [countB_set_add holderB hg _ ehT ehN]
        simp only [countKey, hkey, if_pos]
        omega
      · rw [countB_set_add holderB hg _ ehT ehN]
        omega
      · refine forall_mem_set _ h.fetchOk ?_
        intro r hr
        simp at hr
      · refine forall_mem_set _ h.doneOk ?_
        intro r hr
        simp at hr
      · intro h0
        have hz := h.zeroCase h0
        refine ⟨hz.1, ?_, ?_⟩
        · rw [countB_set_eq fetchingB hg _ efT efN]
          exact hz.2.1
        · rw [countB_set_eq doneB hg _ edT edN]
          exact hz.2.2
      · intro h1
        rcases h.oneCase h1 with ⟨hfc, hnone⟩ | ⟨hfc, hsome⟩
        · refine Or.inl ⟨?_, hnone⟩
          rw [countB_set_eq fetchingB hg _ efT efN]
          exact hfc
        · refine Or.inr ⟨?_, hsome⟩
          rw [countB_set_eq fetchingB hg _ efT efN]
          exact hfc
  | locked =>
    simp only [hp]
    have ehT : holderB t = true := by simp [holderB, hp]
    have hh1 : countB holderB s.tasks = 1 := by
      have hge := countB_pos holderB htmem ehT
      have := h.holdersLe
      omega
    have hck1 : countKey s.locks k = 1 := by
      have := h.lockCount
      omega
    cases hf : lookupFresh s.cache t.key s.now with
    | some w =>
      dsimp only
      rw [hkey] at hf
      have hn1 : getCount s.nfetch k = 1 := by
        by_contra hne
        have hn0 : getCount s.nfetch k = 0 := by omega
        have hz := (h.zeroCase hn0).1
        rw [hz] at hf
        simp at hf
      have hB : countB fetchingB s.tasks = 0 ∧ lookupFresh s.cache k s.now = some v := by
        rcases h.oneCase hn1 with ⟨_, hnone⟩ | hB
        · rw [hnone] at hf
          simp at hf
        · exact hB
      have hw : w = v := by
        have h2 := hB.2
        rw [hf] at h2
        exact Option.some.inj h2
      subst hw
      have ehN : holderB ({ t with phase := Phase.done (FetchResult.ok w) } : CTask V E) = false := rfl
      have efT : fetchingB t = false := by simp [fetchingB, hp]
      have efN : fetchingB ({ t with phase := Phase.done (FetchResult.ok w) } : CTask V E) = false := rfl
      refine ⟨h.oracle0, ?_, ?_, ?_, ?_, h.nfetchLe, ?_, ?_, ?_, ?_⟩
      · exact forall_mem_set _ h.keys hkey
      · exact forall_mem_set _ h.ttls httl
      · dsimp only
        have hrm : countKey (removeOne s.locks t.key) k = countKey s.locks k - 1 := by
          rw [hkey, countKey_removeOne]
        have hsub := countB_set_sub holderB hg
          ({ t with phase := Phase.done (FetchResult.ok w) } : CTask V E) ehT ehN
        omega
      · dsimp only
        have hsub := countB_set_sub holderB hg
          ({ t with phase := Phase.done (FetchResult.ok w) } : CTask V E) ehT ehN
        omega
      · refine forall_mem_set _ h.fetchOk ?_
        intro r hr
        simp at hr
      · refine forall_mem_set _ h.doneOk ?_
        intro r hr
        simp only [Phase.done.injEq] at hr
        exact hr.symm
      · intro h0
        have h0x : getCount s.nfetch k = 0 := h0
        exact absurd h0x (by omega)
      · intro _
        refine Or.inr ⟨?_, hB.2⟩
        rw [countB_set_eq fetchingB hg _ efT efN]
        exact hB.1
    | none =>
      dsimp only
      rw [hkey] at hf
      have hn0 : getCount s.nfetch k = 0 := by
        by_contra hne
        have hn1 : getCount s.nfetch k = 1 := by omega
        rcases h.oneCase hn1 with ⟨hfc, _⟩ | ⟨_, hsome⟩
        · have hlk : lockedB t = true := by simp [lockedB, hp]
          have hlkc := countB_pos lockedB htmem hlk
          have hs := countB_holder_split s.tasks
          omega
        · rw [hsome] at hf
          simp at hf
      have hz := h.zeroCase hn0
      rw [hkey, hn0, h.oracle0]
      have ehN : holderB ({ key := k, ttl := t.ttl, phase := Phase.fetching (FetchResult.ok v) } : CTask V E) = true := rfl
      have efT : fetchingB t = false := by simp [fetchingB, hp]
      have efN : fetchingB ({ key := k, ttl := t.ttl, phase := Phase.fetching (FetchResult.ok v) } : CTask V E) = true := rfl
      have edT : doneB t = false := by simp [doneB, hp]
      have edN : doneB ({ key := k, ttl := t.ttl, phase := Phase.fetching (FetchResult.ok v) } : CTask V E) = false := rfl
      refine ⟨h.oracle0, ?_, ?_, ?_, ?_, ?_, ?_, ?_, ?_, ?_⟩
      · exact forall_mem_set _ h.keys rfl
      · exact forall_mem_set _ h.ttls httl
      · rw [countB_set_keep holderB hg _ (ehT.trans ehN.symm)]
        exact h.lockCount
      · rw [countB_set_keep holderB hg _ (ehT.trans ehN.symm)]
        exact h.holdersLe
      · show getCount (bumpCount s.nfetch k) k ≤ 1
        rw [getCount_bump]
        omega
      · refine forall_mem_set _ h.fetchOk ?_
        intro r hr
        simp only [Phase.fetching.injEq] at hr
        exact hr.symm
      · refine forall_mem_set _ h.doneOk ?_
        intro r hr
        simp at hr
      · intro habs
        rw [getCount_bump] at habs
        exact absurd habs (by omega)
      · intro _
        refine Or.inl ⟨?_, hz.1⟩
        rw [countB_set_add fetchingB hg _ efT efN, hz.2.1]
  | fetching r =>
    have hres := h.fetchOk t htmem r hp
    subst hres
    simp only [hp]
    have ehT : holderB t = true := by simp [holderB, hp]
    have efT : fetchingB t = true := by simp [fetchingB, hp]
    have hh1 : countB holderB s.tasks = 1 := by
      have hge := countB_pos holderB htmem ehT
      have := h.holdersLe
      omega
    have hck1 : countKey s.locks k = 1 := by
      have := h.lockCount
      omega
    have hn1 : getCount s.nfetch k = 1 := by
      by_contra hne
      have hn0 : getCount s.nfetch k = 0 := by omega
      have hz := (h.zeroCase hn0).2.1
      have := countB_pos fetchingB htmem efT
      omega
    have hA : lookupFresh s.cache k s.now = none := by
      rcases h.oneCase hn1 with ⟨_, hnone⟩ | ⟨hfc, _⟩
      · exact hnone
      · have := countB_pos fetchingB htmem efT
        omega
    have ehN : holderB ({ t with phase := Phase.done (FetchResult.ok v) } : CTask V E) = false := rfl
    have efN : fetchingB ({ t with phase := Phase.done (FetchResult.ok v) } : CTask V E) = false := rfl
    refine ⟨h.oracle0, ?_, ?_, ?_, ?_, h.nfetchLe, ?_, ?_, ?_, ?_⟩
    · exact forall_mem_set _ h.keys hkey
    · exact forall_mem_set _ h.ttls httl
    · dsimp only
      have hrm : countKey (removeOne s.locks t.key) k = countKey s.locks k - 1 := by
        rw [hkey, countKey_removeOne]
      have hsub := countB_set_sub holderB hg
        ({ t with phase := Phase.done (FetchResult.ok v) } : CTask V E) ehT ehN
      omega
    · dsimp only
      have hsub := countB_set_sub holderB hg
        ({ t with phase := Phase.done (FetchResult.ok v) } : CTask V E) ehT ehN
      omega
    · refine forall_mem_set _ h.fetchOk ?_
      intro r hr
      simp at hr
    · refine forall_mem_set _ h.doneOk ?_
      intro r hr
      simp only [Phase.done.injEq] at hr
      exact hr.symm
    · intro h0
      have h0x : getCount s.nfetch k = 0 := h0
      exact absurd h0x (by omega)
    · intro _
      refine Or.inr ⟨?_, ?_⟩
      · dsimp only
        have hsub := countB_set_sub fetchingB hg
          ({ t with phase := Phase.done (FetchResult.ok v) } : CTask V E) efT efN
        rcases h.oneCase hn1 with ⟨hfc, _⟩ | ⟨hfc, _⟩
        · omega
        · have := countB_pos fetchingB htmem efT
          omega
      · show lookupFresh (setEntry s.cache t.key v (s.now + t.ttl)) k s.now = some v
        rw [hkey, lookupFresh_setEntry]
        have hlt : s.now < s.now + t.ttl := by omega
        rw [if_pos hlt]
  | done r =>
    simp only [hp]
    exact h

theorem invC1_run {V E : Type} {k : String} {v : V} :
    ∀ (sched : List Nat) (s : CacheSys V E), InvC1 k v s → InvC1 k v (cacheRun s sched)
  | [], _, h => h
  | i :: sched, s, h => invC1_run sched (cacheStep s i) (invC1_step h i)

/-- Claim C1 (amended): for every key `K`, if concurrent callers invoke
`get_or_fetch(K, fetchFn, ttl)` with `ttl > 0` while no live entry exists for
`K` and no fetch is in flight, and the fetch that gets issued succeeds, then
under every interleaving that runs all callers to completion exactly one
`fetch_fn` invocation occurs and every caller receives that invocation's
value.  (The original claim, which also promises a single invocation and a
shared outcome when the fetch fails, is refuted by
`claim_C1_counterexample`.) -/
theorem claim_C1 {V E : Type} (s0 : CacheSys V E) (k : String) (v : V) (sched : List Nat)
    (horacle : s0.oracle k 0 = FetchResult.ok v)
    (hkeys : ∀ t ∈ s0.tasks, t.key = k)
    (httl : ∀ t ∈ s0.tasks, 0 < t.ttl)
    (hstart : ∀ t ∈ s0.tasks, t.phase = Phase.start)
    (hne : s0.tasks ≠ [])
    (hfresh : lookupFresh s0.cache k s0.now = none)
    (hlock : countKey s0.locks k = 0)
    (hnf : getCount s0.nfetch k = 0)
    (hdone : ∀ t ∈ (cacheRun s0 sched).tasks, doneB t = true) :
    getCount (cacheRun s0 sched).nfetch k = 1 ∧
    ∀ t ∈ (cacheRun s0 sched).tasks, t.phase = Phase.done (FetchResult.ok v) := by
  have hh0 : countB holderB s0.tasks = 0 :=
    countB_eq_zero (fun t ht => by simp [holderB, hstart t ht])
  have hf0 : countB fetchingB s0.tasks = 0 :=
    countB_eq_zero (fun t ht => by simp [fetchingB, hstart t ht])
  have hd0 : countB doneB s0.tasks = 0 :=
    countB_eq_zero (fun t ht => by simp [doneB, hstart t ht])
  have hinv0 : InvC1 k v s0 := by
    refine ⟨horacle, hkeys, httl, ?_, ?_, ?_, ?_, ?_, ?_, ?_⟩
    · rw [hh0]
      exact hlock
    · rw [hh0]
      omega
    · rw [hnf]
      omega
    · intro t ht r hr
      rw [hstart t ht] at hr
      cases hr
    · intro t ht r hr
      rw [hstart t ht] at hr
      cases hr
    · intro _
      exact ⟨hfresh, hf0, hd0⟩
    · intro h1
      rw [hnf] at h1
      cases h1
  have hinv := invC1_run sched s0 hinv0
  have hdB : countB doneB (cacheRun s0 sched).tasks = (cacheRun s0 sched).tasks.length :=
    countB_eq_length hdone
  have hlen : (cacheRun s0 sched).tasks.length = s0.tasks.length :=
    cacheRun_tasks_length s0 sched
  have hlenpos : 0 < s0.tasks.length := List.length_pos.mpr hne
  have hn : getCount (cacheRun s0 sched).nfetch k = 1 := by
    have hle := hinv.nfetchLe
    by_contra hne1
    have hz := hinv.zeroCase (by omega)
    have := hz.2.2
    omega
  refine ⟨hn, ?_⟩
  intro t ht
  have hd := hdone t ht
  cases hph : t.phase with
  | start => simp [doneB, hph] at hd
  | tryLock => simp [doneB, hph] at hd
  | locked => simp [doneB, hph] at hd
  | fetching r => simp [doneB, hph] at hd
  | done r =>
    have hres := hinv.doneOk t ht r hph
    rw [hres]

/-- Witness for claim C1: two concrete concurrent callers on an empty cache
with a succeeding fetch; running the schedule 0,0,0,0,1 completes both, the
collaborator is called once, and both callers get its value 7. -/
theorem claim_C1_witness :
    getCount (cacheRun c1sys [0, 0, 0, 0, 1]).nfetch "k" = 1 ∧
    ∀ t ∈ (cacheRun c1sys [0, 0, 0, 0, 1]).tasks, t.phase = Phase.done (FetchResult.ok 7) :=
  claim_C1 c1sys "k" 7 [0, 0, 0, 0, 1] rfl (by decide) (by decide) (by decide)
    (by decide) rfl rfl rfl (by decide)

/-- Counterexample to claim C1 as stated: two concurrent callers, no live
entry, both callers complete — caller 1 even suspends on the lock while
caller 0's fetch is in flight (its scheduled steps 4 and 5 are no-ops) — yet
`fetch_fn` is invoked twice, caller 0 receives the error 42 of the first
invocation, and caller 1 receives the value 9 of a second invocation rather
than the first invocation's outcome. -/
theorem claim_C1_counterexample :
    getCount (cacheRun c1cexSys [0, 0, 1, 1, 1, 0, 0, 1, 1, 1]).nfetch "k" = 2 ∧
    (cacheRun c1cexSys [0, 0, 1, 1, 1, 0, 0, 1, 1, 1]).tasks.map CTask.phase =
      [Phase.done (FetchResult.err 42), Phase.done (FetchResult.ok 9)] := by
  decide

theorem invC4_step {V E : Type} {k : String} {s : CacheSys V E}
    (h : InvC4 k s) (i : Nat) : InvC4 k (cacheStep s i) := by
  unfold cacheStep
  cases hg : s.tasks.get? i with
  | none => exact h
  | some t =>
  have htmem : t ∈ s.tasks := get?_mem' hg
  have hkey : t.key = k := h.keys t htmem
  cases hp : t.phase with
  | start =>
    simp only [hp]
    cases hf : lookupFresh s.cache t.key s.now with
    | some w =>
      dsimp only
      rw [hkey] at hf
      refine ⟨forall_mem_set _ h.keys hkey, ?_⟩
      intro h0
      have h0x : getCount s.nfetch k = 0 := h0
      have hfr := (h.count0 h0x).2.2
      rw [hfr] at hf
      simp at hf
    | none =>
      dsimp only
      refine ⟨forall_mem_set _ h.keys hkey, ?_⟩
      intro h0
      have h0x : getCount s.nfetch k = 0 := h0
      obtain ⟨hf0, hd0, hfr⟩ := h.count0 h0x
      refine ⟨?_, ?_, hfr⟩
      · rw [countB_set_eq fetchingB hg ({ t with phase := Phase.tryLock } : CTask V E)
          (by simp [fetchingB, hp]) rfl]
        exact hf0
      · rw [countB_set_eq doneB hg ({ t with phase := Phase.tryLock } : CTask V E)
          (by simp [doneB, hp]) rfl]
        exact hd0
  | tryLock =>
    simp only [hp]
    by_cases hm : t.key ∈ s.locks
    · simp only [if_pos hm]
      exact h
    · simp only [if_neg hm]
      refine ⟨forall_mem_set _ h.keys hkey, ?_⟩
      intro h0
      have h0x : getCount s.nfetch k = 0 := h0
      obtain ⟨hf0, hd0, hfr⟩ := h.count0 h0x
      refine ⟨?_, ?_, hfr⟩
      · rw [countB_set_eq fetchingB hg ({ t with phase := Phase.locked } : CTask V E)
          (by simp [fetchingB, hp]) rfl]
        exact hf0
      · rw [countB_set_eq doneB hg ({ t with phase := Phase.locked } : CTask V E)
          (by simp [doneB, hp]) rfl]
        exact hd0
  | locked =>
    simp only [hp]
    cases hf : lookupFresh s.cache t.key s.now with
    | some w =>
      dsimp only
      rw [hkey] at hf
      refine ⟨forall_mem_set _ h.keys hkey, ?_⟩
      intro h0
      have h0x : getCount s.nfetch k = 0 := h0
      have hfr := (h.count0 h0x).2.2
      rw [hfr] at hf
      simp at hf
    | none =>
      dsimp only
      refine ⟨forall_mem_set _ h.keys hkey, ?_⟩
      intro habs
      have habs' : getCount (bumpCount s.nfetch t.key) k = 0 := habs
      rw [hkey, getCount_bump] at habs'
      exact absurd habs' (by omega)
  | fetching r =>
    simp only [hp]
    have hftrue : fetchingB t = true := by simp [fetchingB, hp]
    have hpos := countB_pos fetchingB htmem hftrue
    cases r with
    | ok w =>
      refine ⟨forall_mem_set _ h.keys hkey, ?_⟩
      intro h0
      have h0x : getCount s.nfetch k = 0 := h0
      have hf0 := (h.count0 h0x).1
      exact absurd hf0 (by omega)
    | err e =>
      refine ⟨forall_mem_set _ h.keys hkey, ?_⟩
      intro h0
      have h0x : getCount s.nfetch k = 0 := h0
      have hf0 := (h.count0 h0x).1
      exact absurd hf0 (by omega)
  | done r =>
    simp only [hp]
    exact h

theorem invC4_run {V E : Type} {k : String} :
    ∀ (sched : List Nat) (s : CacheSys V E), InvC4 k s → InvC4 k (cacheRun s sched)
  | [], _, h => h
  | i :: sched, s, h => invC4_run sched (cacheStep s i) (invC4_step h i)

/-- Claim C4: for every key `K` whose cache entry was stored at `t0` with TTL
`T`, a `get_or_fetch` caller that starts at time `t0+T+ε` with `ε > 0` and
completes has necessarily triggered a refresh — at least one `fetch_fn`
invocation was recorded; the expired entry is never served as if live. -/
theorem claim_C4 {V E : Type} (s0 : CacheSys V E) (k : String) (v0 : V)
    (t0 T eps : Int) (sched : List Nat)
    (hkeys : ∀ t ∈ s0.tasks, t.key = k)
    (hstart : ∀ t ∈ s0.tasks, t.phase = Phase.start)
    (hcache : cacheLookup s0.cache k = some (v0, t0 + T))
    (hnow : s0.now = t0 + T + eps)
    (heps : 0 < eps)
    (u : CTask V E) (hu : u ∈ (cacheRun s0 sched).tasks) (hd : doneB u = true) :
    1 ≤ getCount (cacheRun s0 sched).nfetch k := by
  have hnlt : ¬ (s0.now < t0 + T) := by
    rw [hnow]
    omega
  have hfreshnone : lookupFresh s0.cache k s0.now = none := by
    simp only [lookupFresh, hcache, if_neg hnlt]
  have hf0 : countB fetchingB s0.tasks = 0 :=
    countB_eq_zero (fun t ht => by simp [fetchingB, hstart t ht])
  have hd0 : countB doneB s0.tasks = 0 :=
    countB_eq_zero (fun t ht => by simp [doneB, hstart t ht])
  have hinv := invC4_run sched s0 ⟨hkeys, fun _ => ⟨hf0, hd0, hfreshnone⟩⟩
  by_contra hlt
  have hz := hinv.count0 (by omega)
  have := countB_pos doneB hu hd
  omega

/-- Witness for claim C4: a concrete caller reading key "k" whose entry
expired at time 10, at time 11; it completes after one collaborator call. -/
theorem claim_C4_witness :
    1 ≤ getCount (cacheRun c4sys [0, 0, 0, 0]).nfetch "k" :=
  claim_C4 c4sys "k" 3 0 10 1 [0, 0, 0, 0] (by decide) (by decide) rfl rfl
    (by decide) ⟨"k", 5, Phase.done (FetchResult.ok 4)⟩ (by decide) (by decide)

theorem invC5_step {V E : Type} {k : String} {c0 : List (String × V × Int)}
    {s : CacheSys V E} (h : InvC5 k c0 s) (i : Nat) : InvC5 k c0 (cacheStep s i) := by
  unfold cacheStep
  cases hg : s.tasks.get? i with
  | none => exact h
  | some t =>
  have htmem : t ∈ s.tasks := get?_mem' hg
  have hkey : t.key = k := h.keys t htmem
  cases hp : t.phase with
  | start =>
    simp only [hp]
    cases hf : lookupFresh s.cache t.key s.now with
    | some w =>
      rw [hkey, h.freshNone] at hf
      simp at hf
    | none =>
      dsimp only
      refine ⟨h.oracleErr, forall_mem_set _ h.keys hkey, h.cacheEq, h.freshNone, ?_, ?_, ?_, ?_⟩
      · rw [countB_set_eq holderB hg ({ t with phase := Phase.tryLock } : CTask V E)
          (by simp [holderB, hp]) rfl]
        exact h.lockCount
      · rw [countB_set_eq fetchingB hg ({ t with phase := Phase.tryLock } : CTask V E)
          (by simp [fetchingB, hp]) rfl,
          countB_set_eq doneB hg ({ t with phase := Phase.tryLock } : CTask V E)
          (by simp [doneB, hp]) rfl]
        exact h.countEq
      · refine forall_mem_set _ h.fetchErr ?_
        intro r hr
        simp at hr
      · refine forall_mem_set _ h.doneErr ?_
        intro r hr
        simp at hr
  | tryLock =>
    simp only [hp]
    by_cases hm : t.key ∈ s.locks
    · simp only [if_pos hm]
      exact h
    · simp only [if_neg hm]
      rw [hkey] at hm
      have hck : countKey s.locks k = 0 := (countKey_eq_zero_iff s.locks k).mpr hm
      have hh0 : countB holderB s.tasks = 0 := by
        have := h.lockCount
        omega
      refine ⟨h.oracleErr, forall_mem_set _ h.keys hkey, h.cacheEq, h.freshNone, ?_, ?_, ?_, ?_⟩
      · dsimp only
        rw [countB_set_add holderB hg ({ t with phase := Phase.locked } : CTask V E)
          (by simp [holderB, hp]) rfl, hkey]
        have hc : countKey (k :: s.locks) k = countKey s.locks k + 1 := by
          simp [countKey]
          omega
        omega
      · rw [countB_set_eq fetchingB hg ({ t with phase := Phase.locked } : CTask V E)
          (by simp [fetchingB, hp]) rfl,
          countB_set_eq doneB hg ({ t with phase := Phase.locked } : CTask V E)
          (by simp [doneB, hp]) rfl]
        exact h.countEq
      · refine forall_mem_set _ h.fetchErr ?_
        intro r hr
        simp at hr
      · refine forall_mem_set _ h.doneErr ?_
        intro r hr
        simp at hr
  | locked =>
    simp only [hp]
    have ehT : holderB t = true := by simp [holderB, hp]
    cases hf : lookupFresh s.cache t.key s.now with
    | some w =>
      rw [hkey, h.freshNone] at hf
      simp at hf
    | none =>
      dsimp only
      refine ⟨h.oracleErr, forall_mem_set _ h.keys hkey, h.cacheEq, h.freshNone, ?_, ?_, ?_, ?_⟩
      · rw [countB_set_keep holderB hg
          ({ t with phase := Phase.fetching (s.oracle t.key (getCount s.nfetch t.key)) } : CTask V E)
          (by rw [ehT]; rfl)]
        exact h.lockCount
      · dsimp only
        have hb : getCount (bumpCount s.nfetch t.key) k = getCount s.nfetch k + 1 := by
          rw [hkey, getCount_bump]
        have hfs := countB_set_add fetchingB hg
          ({ t with phase := Phase.fetching (s.oracle t.key (getCount s.nfetch t.key)) } : CTask V E)
          (by simp [fetchingB, hp]) rfl
        have hds := countB_set_eq doneB hg
          ({ t with phase := Phase.fetching (s.oracle t.key (getCount s.nfetch t.key)) } : CTask V E)
          (by simp [doneB, hp]) rfl
        have hce := h.countEq
        omega
      · refine forall_mem_set _ h.fetchErr ?_
        intro r hr
        simp only [Phase.fetching.injEq] at hr
        rw [hkey] at hr
        obtain ⟨e, he⟩ := h.oracleErr (getCount s.nfetch k)
        exact ⟨e, by rw [← hr]; exact he⟩
      · refine forall_mem_set _ h.doneErr ?_
        intro r hr
        simp at hr
  | fetching r =>
    obtain ⟨e, he⟩ := h.fetchErr t htmem r hp
    subst he
    simp only [hp]
    have ehT : holderB t = true := by simp [holderB, hp]
    have efT : fetchingB t = true := by simp [fetchingB, hp]
    have hpos := countB_pos holderB htmem ehT
    refine ⟨h.oracleErr, forall_mem_set _ h.keys hkey, h.cacheEq, h.freshNone, ?_, ?_, ?_, ?_⟩
    · dsimp only
      have hrm : countKey (removeOne s.locks t.key) k = countKey s.locks k - 1 := by
        rw [hkey, countKey_removeOne]
      have hsub := countB_set_sub holderB hg
        ({ t with phase := Phase.done (FetchResult.err e) } : CTask V E) ehT rfl
      have := h.lockCount
      omega
    · dsimp only
      have hfsub := countB_set_sub fetchingB hg
        ({ t with phase := Phase.done (FetchResult.err e) } : CTask V E) efT rfl
      have hdadd := countB_set_add doneB hg
        ({ t with phase := Phase.done (FetchResult.err e) } : CTask V E)
        (by simp [doneB, hp]) rfl
      have hce := h.countEq
      have hfpos := countB_pos fetchingB htmem efT
      omega
    · refine forall_mem_set _ h.fetchErr ?_
      intro r hr
      simp at hr
    · refine forall_mem_set _ h.doneErr ?_
      intro r hr
      simp only [Phase.done.injEq] at hr
      exact ⟨e, hr.symm⟩
  | done r =>
    simp only [hp]
    exact h

theorem invC5_run {V E : Type} {k : String} {c0 : List (String × V × Int)} :
    ∀ (sched : List Nat) (s : CacheSys V E), InvC5 k c0 s → InvC5 k c0 (cacheRun s sched)
  | [], _, h => h
  | i :: sched, s, h => invC5_run sched (cacheStep s i) (invC5_step h i)

/-- Claim C5 (amended): for every key `K`, when the collaborator fetch for `K`
keeps failing, any set of concurrent `get_or_fetch(K, ...)` callers that runs
to completion leaves the cache store exactly as it was (no error is ever
cached and no previously cached value is touched), clears the in-flight lock
for `K`, and surfaces an error to every caller; however each caller performs
its own `fetch_fn` invocation — the number of invocations equals the number
of callers — instead of all waiters receiving the first invocation's error.
(The original claim's "the error surfaces to every waiter deduplicated onto
that same in-flight fetch" is refuted by `claim_C5_counterexample`.) -/
theorem claim_C5 {V E : Type} (s0 : CacheSys V E) (k : String) (sched : List Nat)
    (horacle : ∀ n, ∃ e, s0.oracle k n = FetchResult.err e)
    (hkeys : ∀ t ∈ s0.tasks, t.key = k)
    (hstart : ∀ t ∈ s0.tasks, t.phase = Phase.start)
    (hfresh : lookupFresh s0.cache k s0.now = none)
    (hlock : countKey s0.locks k = 0)
    (hnf : getCount s0.nfetch k = 0)
    (hdone : ∀ t ∈ (cacheRun s0 sched).tasks, doneB t = true) :
    (cacheRun s0 sched).cache = s0.cache ∧
    countKey (cacheRun s0 sched).locks k = 0 ∧
    getCount (cacheRun s0 sched).nfetch k = (cacheRun s0 sched).tasks.length ∧
    ∀ t ∈ (cacheRun s0 sched).tasks, ∃ e, t.phase = Phase.done (FetchResult.err e) := by
  have hh0 : countB holderB s0.tasks = 0 :=
    countB_eq_zero (fun t ht => by simp [holderB, hstart t ht])
  have hf0 : countB fetchingB s0.tasks = 0 :=
    countB_eq_zero (fun t ht => by simp [fetchingB, hstart t ht])
  have hd0 : countB doneB s0.tasks = 0 :=
    countB_eq_zero (fun t ht => by simp [doneB, hstart t ht])
  have hinv0 : InvC5 k s0.cache s0 := by
    refine ⟨horacle, hkeys, rfl, hfresh, ?_, ?_, ?_, ?_⟩
    · rw [hh0]
      exact hlock
    · rw [hnf, hf0, hd0]
    · intro t ht r hr
      rw [hstart t ht] at hr
      cases hr
    · intro t ht r hr
      rw [hstart t ht] at hr
      cases hr
  have hinv := invC5_run sched s0 hinv0
  have hhz : countB holderB (cacheRun s0 sched).tasks = 0 := by
    refine countB_eq_zero (fun t ht => ?_)
    have hd := hdone t ht
    cases hph : t.phase <;> simp [doneB, holderB, hph] at hd ⊢
  have hfz : countB fetchingB (cacheRun s0 sched).tasks = 0 := by
    refine countB_eq_zero (fun t ht => ?_)
    have hd := hdone t ht
    cases hph : t.phase <;> simp [doneB, fetchingB, hph] at hd ⊢
  have hdl : countB doneB (cacheRun s0 sched).tasks = (cacheRun s0 sched).tasks.length :=
    countB_eq_length hdone
  refine ⟨hinv.cacheEq, ?_, ?_, ?_⟩
  · have := hinv.lockCount
    omega
  · have := hinv.countEq
    omega
  · intro t ht
    have hd := hdone t ht
    cases hph : t.phase with
    | start => simp [doneB, hph] at hd
    | tryLock => simp [doneB, hph] at hd
    | locked => simp [doneB, hph] at hd
    | fetching r => simp [doneB, hph] at hd
    | done r =>
      obtain ⟨e, he⟩ := hinv.doneErr t ht r hph
      exact ⟨e, by rw [he]⟩

/-- Witness for claim C5: two concrete concurrent callers of
`get_or_fetch("k", ...)` whose collaborator always raises error 3; the run
completes with the cache untouched, the lock free, two fetch invocations, and
an error surfaced to both callers. -/
theorem claim_C5_witness :
    (cacheRun c5sys [0, 0, 1, 1, 0, 0, 1, 1, 1]).cache = c5sys.cache ∧
    countKey (cacheRun c5sys [0, 0, 1, 1, 0, 0, 1, 1, 1]).locks "k" = 0 ∧
    getCount (cacheRun c5sys [0, 0, 1, 1, 0, 0, 1, 1, 1]).nfetch "k" =
      (cacheRun c5sys [0, 0, 1, 1, 0, 0, 1, 1, 1]).tasks.length ∧
    ∀ t ∈ (cacheRun c5sys [0, 0, 1, 1, 0, 0, 1, 1, 1]).tasks,
      ∃ e, t.phase = Phase.done (FetchResult.err e) :=
  claim_C5 c5sys "k" [0, 0, 1, 1, 0, 0, 1, 1, 1] (fun _ => ⟨3, rfl⟩) (by decide)
    (by decide) rfl rfl rfl (by decide)

/-- Counterexample to claim C5 as stated: caller 0's fetch for "n" fails with
error 7 while caller 1 is suspended on the same key's lock (its scheduled
step 4 is a no-op because the lock is held); yet caller 1 does not receive
that error — it issues a second `fetch_fn` invocation of its own and returns
its value 12 — refuting "the error surfaces ... to every waiter deduplicated
onto that same in-flight fetch". -/
theorem claim_C5_counterexample :
    getCount (cacheRun c5cexSys [0, 0, 1, 1, 0, 0, 1, 1, 1]).nfetch "n" = 2 ∧
    (cacheRun c5cexSys [0, 0, 1, 1, 0, 0, 1, 1, 1]).tasks.map CTask.phase =
      [Phase.done (FetchResult.err 7), Phase.done (FetchResult.ok 12)] := by
  decide

/-- Claim C8: `invalidate(key)` removes the entry for `key` unconditionally and
is idempotent (no error when the key is absent, a second call changes nothing),
and `invalidate_prefix(prefix)` removes exactly the keys whose string
representation starts with `prefix`, leaving every other key's entry
unchanged. -/
theorem claim_C8 {V : Type} (c : List (String × V × Int)) (k p k' : String) :
    cacheLookup (invalidate c k) k = none ∧
    invalidate (invalidate c k) k = invalidate c k ∧
    cacheLookup (invalidateByPrefix c p) k' =
      (if k'.startsWith p then none else cacheLookup c k') := by
  refine ⟨?_, ?_, ?_⟩
  · induction c with
    | nil => rfl
    | cons e rest ih =>
      by_cases h : e.1 = k
      · simpa [invalidate, h] using ih
      · simpa [invalidate, cacheLookup, h] using ih
  · induction c with
    | nil => rfl
    | cons e rest ih =>
      by_cases h : e.1 = k
      · simpa [invalidate, h] using ih
      · simpa [invalidate, h] using ih
  · induction c with
    | nil => simp [invalidateByPrefix, cacheLookup]
    | cons e rest ih =>
      by_cases h : e.1.startsWith p
      · by_cases hk : e.1 = k'
        · subst hk
          simpa [invalidateByPrefix, h] using ih
        · simpa [invalidateByPrefix, cacheLookup, h, hk] using ih
      · by_cases hk : e.1 = k'
        · subst hk
          simp [invalidateByPrefix, cacheLookup, h]
        · simpa [invalidateByPrefix, cacheLookup, h, hk] using ih

theorem foldl_ringAppend {α : Type} (cap : Nat) :
    ∀ (xs l : List α), l.length ≤ cap →
      List.foldl (ringAppend cap) l xs = (l ++ xs).drop (l.length + xs.length - cap)
  | [], l, hl => by
    have h0 : l.length - cap = 0 := by omega
    simp [h0]
  | x :: xs, l, hl => by
    have hlen : (ringAppend cap l x).length ≤ cap := by
      simp only [ringAppend, List.length_drop, List.length_append, List.length_cons,
        List.length_nil]
      omega
    have ih := foldl_ringAppend cap xs (ringAppend cap l x) hlen
    have hk : l.length + 1 - cap ≤ (l ++ [x]).length := by
      simp only [List.length_append, List.length_cons, List.length_nil]
      omega
    show List.foldl (ringAppend cap) (ringAppend cap l x) xs = _
    rw [ih]
    show ((l ++ [x]).drop (l.length + 1 - cap) ++ xs).drop
        ((ringAppend cap l x).length + xs.length - cap) = _
    rw [← List.drop_append_of_le_length hk, List.drop_drop]
    have hidx : l.length + 1 - cap + ((ringAppend cap l x).length + xs.length - cap)
        = l.length + (x :: xs).length - cap := by
      simp only [ringAppend, List.length_drop, List.length_append, List.length_cons,
        List.length_nil]
      omega
    rw [hidx]
    congr 1
    simp

/-- Claim C6: a ring buffer of capacity `N` (`deque(maxlen=N)`, default 1000):
after `N+M` appends with `M > 0` exactly the last `N` appended records remain,
in append (oldest-first) order, and after any sequence of appends the buffer
holds at most `N` records. -/
theorem claim_C6 {α : Type} (cap M : Nat) (xs : List α) (hlen : xs.length = cap + M)
    (hM : 0 < M) :
    List.foldl (ringAppend cap) [] xs = xs.drop M ∧
    (List.foldl (ringAppend cap) [] xs).length = cap ∧
    ∀ ys : List α, (List.foldl (ringAppend cap) [] ys).length ≤ cap := by
  have h1 := foldl_ringAppend cap xs [] (by simp)
  refine ⟨?_, ?_, ?_⟩
  · rw [h1, List.nil_append]
    congr 1
    simp only [List.length_nil]
    omega
  · rw [h1]
    simp only [List.nil_append, List.length_drop, List.length_nil]
    omega
  · intro ys
    have h2 := foldl_ringAppend cap ys [] (by simp)
    rw [h2]
    simp only [List.nil_append, List.length_drop, List.length_nil]
    omega

/-- Witness for claim C6: capacity 3, four appends; exactly the last three
elements remain in order, and no run ever exceeds three elements. -/
theorem claim_C6_witness :
    List.foldl (ringAppend 3) [] [1, 2, 3, 4] = [1, 2, 3, 4].drop 1 ∧
    (List.foldl (ringAppend 3) [] [1, 2, 3, 4]).length = 3 ∧
    ∀ ys : List Nat, (List.foldl (ringAppend 3) [] ys).length ≤ 3 :=
  claim_C6 3 1 [1, 2, 3, 4] rfl (by decide)

theorem collectOne_get? (st : LogState) (r : LogRecord) (i : Nat) (e : String × SubConn)
    (hi : st.subscribers.get? i = some e) :
    (collectOne st r).subscribers.get? i =
      some (match sendIfMatches e.2 r with
            | Except.ok c2 => (e.1, c2)
            | Except.error _ => (e.1, e.2)) := by
  show (st.subscribers.map _).get? i = _
  rw [List.get?_map, hi]
  rfl

/-- Claim C2: for every live subscription and published record, the record is
delivered to that subscription's (healthy) sink iff the record's source name
matches the subscription's pattern set — an empty set matching every source,
a non-empty set matching when the source starts with or wildcard-matches some
pattern — and the record's severity is at or above the subscription's
minimum level under the total order over severities.  The matcher
`send_if_matches` is missing from the repository and modelled from the
spec. -/
theorem claim_C2 (st : LogState) (r : LogRecord) (i : Nat) (e : String × SubConn)
    (hi : st.subscribers.get? i = some e) (hok : e.2.sink.ok = true) :
    ((collectOne st r).subscribers.get? i = some (e.1, pushRecord e.2 r) ↔
      filterMatches e.2.filter r = true) ∧
    ((collectOne st r).subscribers.get? i = some e ↔
      filterMatches e.2.filter r = false) := by
  have hmap := collectOne_get? st r i e hi
  have hne : pushRecord e.2 r ≠ e.2 := by
    intro hEq
    have hlen := congrArg (fun c => c.sink.delivered.length) hEq
    simp [pushRecord] at hlen
  rcases Bool.eq_false_or_eq_true (filterMatches e.2.filter r) with hm | hm
  · have hsend : sendIfMatches e.2 r = Except.ok (pushRecord e.2 r) := by
      simp [sendIfMatches, hm, hok]
    have hval : (collectOne st r).subscribers.get? i = some (e.1, pushRecord e.2 r) := by
      rw [hmap, hsend]
    constructor
    · exact ⟨fun _ => hm, fun _ => hval⟩
    · constructor
      · intro hEq
        have h2 := congrArg Prod.snd (Option.some.inj (hval.symm.trans hEq))
        exact absurd h2 hne
      · intro hF
        rw [hF] at hm
        cases hm
  · have hsend : sendIfMatches e.2 r = Except.ok e.2 := by
      simp [sendIfMatches, hm]
    have hval : (collectOne st r).subscribers.get? i = some e := by
      rw [hmap, hsend]
    constructor
    · constructor
      · intro hEq
        have h2 := congrArg Prod.snd (Option.some.inj (hval.symm.trans hEq))
        exact absurd h2.symm hne
      · intro hT
        rw [hT] at hm
        cases hm
    · exact ⟨fun _ => hm, fun _ => hval⟩

/-- Witness for claim C2: the spec's example subscription
`{patterns: ["/sensing"], minLevel: WARN}` and a record from
`/sensing/lidar/top` at ERROR: the record is delivered, and the no-delivery
alternative is equivalent to the filter not matching. -/
theorem claim_C2_witness :
    ((collectOne c2state c2record).subscribers.get? 0 =
        some ("a", pushRecord
          ({ filter := { namePatterns := ["/sensing"], minLevel := LogLevel.warn },
             sink := { ok := true, delivered := [] } } : SubConn) c2record) ↔
      filterMatches { namePatterns := ["/sensing"], minLevel := LogLevel.warn } c2record = true) ∧
    ((collectOne c2state c2record).subscribers.get? 0 =
        some ("a", { filter := { namePatterns := ["/sensing"], minLevel := LogLevel.warn },
                     sink := { ok := true, delivered := [] } }) ↔
      filterMatches { namePatterns := ["/sensing"], minLevel := LogLevel.warn } c2record = false) :=
  claim_C2 c2state c2record 0
    ("a", { filter := { namePatterns := ["/sensing"], minLevel := LogLevel.warn },
            sink := { ok := true, delivered := [] } }) rfl rfl

/-- Claim C3 (amended): `subscribe` registers the new subscription and
delivers no backlog — at subscribe time the new sink has received nothing and
the buffer and existing subscriptions are unchanged; the ring-buffer tail
capped at `count` (default 100) is available separately through
`get_recent`, which returns a suffix of the buffer of length
`min count size` when `count > 0` — but the websocket connection path never
calls it.  (The original claim, that the backlog is delivered to the new
subscriber before any live record, is refuted by
`claim_C3_counterexample`.) -/
theorem claim_C3 (st : LogState) (newId : String) (f : SubFilter) (sinkOk : Bool)
    (count : Nat) (hc : 0 < count) :
    (wsConnect st newId f sinkOk).1.buffer = st.buffer ∧
    (wsConnect st newId f sinkOk).1.subscribers =
      st.subscribers ++ [(newId, { filter := f, sink := { ok := sinkOk, delivered := [] } })] ∧
    get_recent st count <:+ st.buffer ∧
    (get_recent st count).length = min count st.buffer.length := by
  have hc0 : ¬ count = 0 := by omega
  refine ⟨rfl, rfl, ?_, ?_⟩
  · simp only [get_recent, if_neg hc0]
    exact List.drop_suffix _ _
  · simp only [get_recent, if_neg hc0, List.length_drop]
    omega

/-- Witness for claim C3: connecting a match-all subscriber to a service with
three buffered records registers it with an empty delivered list, while
`get_recent 100` separately yields the three-record tail. -/
theorem claim_C3_witness :
    (wsConnect c3state "s9" { namePatterns := [], minLevel := LogLevel.debug } true).1.buffer
      = c3state.buffer ∧
    (wsConnect c3state "s9" { namePatterns := [], minLevel := LogLevel.debug } true).1.subscribers
      = c3state.subscribers ++
        [("s9", { filter := { namePatterns := [], minLevel := LogLevel.debug },
                  sink := { ok := true, delivered := [] } })] ∧
    get_recent c3state 100 <:+ c3state.buffer ∧
    (get_recent c3state 100).length = min 100 c3state.buffer.length :=
  claim_C3 c3state "s9" { namePatterns := [], minLevel := LogLevel.debug } true 100
    (by decide)

/-- Counterexample to claim C3 as stated: a websocket subscriber connects with
a match-all filter while the Ring Buffer holds three records; the new
subscription's sink has received nothing at subscribe time ([[]]), although
the required backlog — the buffer tail filtered by its filter and capped at
the replay size 100 — is the whole non-empty buffer.  `subscribe` returns
only the id and `logs_websocket` never sends `get_recent` output, so no
backlog is ever delivered. -/
theorem claim_C3_counterexample :
    (wsConnect c3state "s1" { namePatterns := [], minLevel := LogLevel.debug } true).1.subscribers.map
      (fun e => e.2.sink.delivered) = [[]] ∧
    get_recent c3state 100 = c3state.buffer ∧
    c3state.buffer ≠ [] := by
  decide

set_option maxRecDepth 10000 in
/-- Claim C7 (amended): a record offered to a subscription whose sink fails is
dropped for that one subscription only: the failing subscription's stored
state is left completely unchanged, the ingestion iteration still appends the
record to the buffer and still processes every subscription — any other
subscription with a healthy sink receives the record iff its filter matches.
No drop counter exists: the exception is swallowed by `except: pass` and
nothing records the drop (original claim's counter refuted by
`claim_C7_counterexample`). -/
theorem claim_C7 (st : LogState) (r : LogRecord) (i : Nat) (e : String × SubConn)
    (hi : st.subscribers.get? i = some e) (hbad : e.2.sink.ok = false) :
    (collectOne st r).subscribers.get? i = some e ∧
    (collectOne st r).subscribers.length = st.subscribers.length ∧
    (collectOne st r).buffer = ringAppend 1000 st.buffer r ∧
    ∀ j ej, st.subscribers.get? j = some ej → ej.2.sink.ok = true →
      (collectOne st r).subscribers.get? j =
        some (ej.1, if filterMatches ej.2.filter r then pushRecord ej.2 r else ej.2) := by
  refine ⟨?_, ?_, ?_, ?_⟩
  · have hmap := collectOne_get? st r i e hi
    rcases Bool.eq_false_or_eq_true (filterMatches e.2.filter r) with hm | hm
    · have hsend : sendIfMatches e.2 r = Except.error () := by
        simp [sendIfMatches, hm, hbad]
      rw [hmap, hsend]
    · have hsend : sendIfMatches e.2 r = Except.ok e.2 := by
        simp [sendIfMatches, hm]
      rw [hmap, hsend]
  · show (st.subscribers.map _).length = _
    rw [List.length_map]
  · show ringAppend 1000 st.buffer r = _
    rfl
  · intro j ej hj hokj
    have hmap := collectOne_get? st r j ej hj
    rcases Bool.eq_false_or_eq_true (filterMatches ej.2.filter r) with hm | hm
    · have hsend : sendIfMatches ej.2 r = Except.ok (pushRecord ej.2 r) := by
        simp [sendIfMatches, hm, hokj]
      rw [hmap, hsend, if_pos (by simp [hm])]
    · have hsend : sendIfMatches ej.2 r = Except.ok ej.2 := by
        simp [sendIfMatches, hm]
      rw [hmap, hsend, if_neg (by simp [hm])]

/-- Witness for claim C7: subscription "s1" has a failing sink and "s2" a
healthy one; publishing a matching record leaves "s1" untouched, keeps both
subscriptions, appends to the buffer, and still serves "s2". -/
theorem claim_C7_witness :
    (collectOne c7state2 c7record).subscribers.get? 0 =
      some ("s1", { filter := { namePatterns := [], minLevel := LogLevel.debug },
                    sink := { ok := false, delivered := [] } }) ∧
    (collectOne c7state2 c7record).subscribers.length = c7state2.subscribers.length ∧
    (collectOne c7state2 c7record).buffer = ringAppend 1000 c7state2.buffer c7record ∧
    ∀ j ej, c7state2.subscribers.get? j = some ej → ej.2.sink.ok = true →
      (collectOne c7state2 c7record).subscribers.get? j =
        some (ej.1, if filterMatches ej.2.filter c7record then pushRecord ej.2 c7record else ej.2) :=
  claim_C7 c7state2 c7record 0
    ("s1", { filter := { namePatterns := [], minLevel := LogLevel.debug },
             sink := { ok := false, delivered := [] } }) rfl rfl

/-- Counterexample to claim C7 as stated: a record matching the only
subscription, whose sink fails, is dropped for it — but the subscriber
registry after the iteration is identical to before.  The service keeps no
per-subscription drop counter to increment: the only per-subscription state
is the callback entry, and `except: pass` records nothing, so the claimed
"per-subscription drop counter incremented for each drop" does not exist in
the code. -/
theorem claim_C7_counterexample :
    filterMatches { namePatterns := [], minLevel := LogLevel.debug } c7record = true ∧
    (collectOne c7state c7record).subscribers = c7state.subscribers := by
  decide

theorem countsCorrect_elim : ∀ t : NamespaceTree, countsCorrect t →
    t.count = (allNodes t).length ∧
    t.activeCount = ((allNodes t).filter isActive).length ∧
    t.lifecycleCount = ((allNodes t).filter isLifecycleActive).length
  | .mk _ _ _ _ _, h => h.1

theorem sums_of_correct : ∀ cs : List (String × NamespaceTree), countsCorrectChildren cs →
    sumCounts cs = (allNodesChildren cs).length ∧
    sumActive cs = ((allNodesChildren cs).filter isActive).length ∧
    sumLifecycle cs = ((allNodesChildren cs).filter isLifecycleActive).length
  | [], _ => by simp [sumCounts, sumActive, sumLifecycle, allNodesChildren]
  | e :: rest, h => by
    obtain ⟨he, hrest⟩ := h
    obtain ⟨h1, h2, h3⟩ := countsCorrect_elim e.2 he
    obtain ⟨i1, i2, i3⟩ := sums_of_correct rest hrest
    refine ⟨?_, ?_, ?_⟩
    · show e.2.count + sumCounts rest = (allNodes e.2 ++ allNodesChildren rest).length
      rw [List.length_append, h1, i1]
    · show e.2.activeCount + sumActive rest =
        ((allNodes e.2 ++ allNodesChildren rest).filter isActive).length
      rw [List.filter_append, List.length_append, h2, i2]
    · show e.2.lifecycleCount + sumLifecycle rest =
        ((allNodes e.2 ++ allNodesChildren rest).filter isLifecycleActive).length
      rw [List.filter_append, List.length_append, h3, i3]

mutual

theorem allNodes_calc : ∀ t : NamespaceTree, allNodes (calcCounts t) = allNodes t
  | .mk cs ns c a lc => by
    show ns ++ allNodesChildren (calcCountsChildren cs) = ns ++ allNodesChildren cs
    rw [allNodesChildren_calc cs]

theorem allNodesChildren_calc : ∀ cs : List (String × NamespaceTree),
    allNodesChildren (calcCountsChildren cs) = allNodesChildren cs
  | [] => rfl
  | e :: rest => by
    show allNodes (calcCounts e.2) ++ allNodesChildren (calcCountsChildren rest) = _
    rw [allNodes_calc e.2, allNodesChildren_calc rest]
    rfl

end

mutual

theorem calc_correct : ∀ t : NamespaceTree, countsCorrect (calcCounts t)
  | .mk cs ns c a lc => by
    have hch := calc_correct_children cs
    obtain ⟨s1, s2, s3⟩ := sums_of_correct (calcCountsChildren cs) hch
    refine ⟨⟨?_, ?_, ?_⟩, hch⟩
    · rw [List.length_append, s1]
    · rw [List.filter_append, List.length_append, s2]
      rfl
    · rw [List.filter_append, List.length_append, s3]
      rfl

theorem calc_correct_children : ∀ cs : List (String × NamespaceTree),
    countsCorrectChildren (calcCountsChildren cs)
  | [] => trivial
  | e :: rest => ⟨calc_correct e.2, calc_correct_children rest⟩

end

theorem length_filter_lifecycle_le : ∀ L : List RNode,
    (L.filter isLifecycleActive).length ≤ (L.filter isActive).length
  | [] => Nat.le_refl 0
  | x :: L => by
    have ih := length_filter_lifecycle_le L
    rcases Bool.eq_false_or_eq_true (isActive x) with hA | hA
    · rcases Bool.eq_false_or_eq_true (isLifecycleActive x) with hL | hL <;>
        simp only [List.filter, hA, hL, List.length_cons] <;> omega
    · have hL : isLifecycleActive x = false := by
        simp [isLifecycleActive, hA]
      simp only [List.filter, hA, hL]
      exact ih

mutual

theorem correct_mono : ∀ t : NamespaceTree, countsCorrect t → countsMono t
  | .mk cs ns c a lc, h => by
    obtain ⟨⟨h1, h2, h3⟩, hch⟩ := h
    refine ⟨⟨?_, ?_⟩, correct_mono_children cs hch⟩
    · rw [h3, h2]
      exact length_filter_lifecycle_le _
    · rw [h2, h1]
      exact List.length_filter_le _ _

theorem correct_mono_children : ∀ cs : List (String × NamespaceTree),
    countsCorrectChildren cs → countsMonoChildren cs
  | [], _ => trivial
  | e :: rest, h => ⟨correct_mono e.2 h.1, correct_mono_children rest h.2⟩

end

mutual

theorem allNodes_insert : ∀ (ps : List String) (n : RNode) (t : NamespaceTree),
    (allNodes (insertAt ps n t)).length = (allNodes t).length + 1
  | [], n, .mk cs ns c a lc => by
    simp only [insertAt, allNodes, List.length_append, List.length_cons, List.length_nil]
    omega
  | p :: ps, n, .mk cs ns c a lc => by
    have h := allNodesChildren_insert p ps n cs
    simp only [insertAt, allNodes, List.length_append]
    omega
termination_by ps _ _ => (ps.length, 0)

theorem allNodesChildren_insert : ∀ (p : String) (ps : List String) (n : RNode)
    (cs : List (String × NamespaceTree)),
    (allNodesChildren (insertChild p ps n cs)).length = (allNodesChildren cs).length + 1
  | p, ps, n, [] => by
    have h := allNodes_insert ps n emptyNT
    have h0 : (allNodes emptyNT).length = 0 := by
      simp [emptyNT, allNodes, allNodesChildren]
    simp only [insertChild, allNodesChildren, List.append_nil, List.length_nil]
    omega
  | p, ps, n, e :: rest => by
    by_cases hp : e.1 = p
    · have h := allNodes_insert ps n e.2
      simp only [insertChild, if_pos hp, allNodesChildren, List.length_append]
      omega
    · have h := allNodesChildren_insert p ps n rest
      simp only [insertChild, if_neg hp, allNodesChildren, List.length_append]
      omega
termination_by _ ps _ cs => (ps.length, cs.length + 1)

end

theorem foldl_insert_length : ∀ (nodes : List RNode) (t : NamespaceTree),
    (allNodes (List.foldl (fun t n => insertAt (nodePath n) n t) t nodes)).length =
      (allNodes t).length + nodes.length
  | [], t => by simp
  | n :: rest, t => by
    have ih := foldl_insert_length rest (insertAt (nodePath n) n t)
    have h1 := allNodes_insert (nodePath n) n t
    show (allNodes (List.foldl _ (insertAt (nodePath n) n t) rest)).length = _
    rw [ih, h1]
    simp only [List.length_cons]
    omega

/-- Claim C9: `buildTree` produces a tree in which every namespace node's
`count` equals the number of flat nodes in its subtree, `activeCount` the
number of subtree nodes with status active, and `lifecycleCount` the number of
subtree nodes that are lifecycle-typed and active; consequently
`lifecycleCount ≤ activeCount ≤ count` at every tree node, and the root
`count` equals the length of the input list. -/
theorem claim_C9 (nodes : List RNode) :
    countsCorrect (buildTree nodes) ∧
    countsMono (buildTree nodes) ∧
    (buildTree nodes).count = nodes.length := by
  have hc : countsCorrect (buildTree nodes) := calc_correct _
  refine ⟨hc, correct_mono _ hc, ?_⟩
  have h1 := (countsCorrect_elim _ hc).1
  rw [h1]
  show (allNodes (calcCounts (List.foldl (fun t n => insertAt (nodePath n) n t) emptyNT nodes))).length = _
  rw [allNodes_calc, foldl_insert_length]
  have h0 : (allNodes emptyNT).length = 0 := by
    simp [emptyNT, allNodes, allNodesChildren]
  omega

theorem evictLoop_eq : ∀ (l : List Notification) (tm : List String),
    evictLoop l tm =
      (l.drop (l.length + 1 - MAX_NOTIFICATIONS),
       removeIds ((l.take (l.length + 1 - MAX_NOTIFICATIONS)).map Notification.nid) tm)
  | [], tm => by
    rw [evictLoop.eq_def]
    simp [MAX_NOTIFICATIONS, removeIds]
  | o :: rest, tm => by
    rw [evictLoop.eq_def]
    by_cases h : MAX_NOTIFICATIONS ≤ (o :: rest).length
    · rw [if_pos h]
      show evictLoop rest (tm.filter (fun x => decide (x ≠ o.nid))) = _
      rw [evictLoop_eq rest]
      have hk : (o :: rest).length + 1 - MAX_NOTIFICATIONS
          = (rest.length + 1 - MAX_NOTIFICATIONS) + 1 := by
        simp only [List.length_cons, MAX_NOTIFICATIONS] at h ⊢
        omega
      rw [hk, List.drop_succ_cons, List.take_succ_cons]
      rfl
    · rw [if_neg h]
      have hk : (o :: rest).length + 1 - MAX_NOTIFICATIONS = 0 := by
        simp only [List.length_cons, MAX_NOTIFICATIONS] at h ⊢
        omega
      rw [hk]
      simp [removeIds]

theorem removeIds_mem : ∀ (ids tm : List String) (x : String),
    x ∈ removeIds ids tm ↔ x ∈ tm ∧ x ∉ ids
  | [], tm, x => by simp [removeIds]
  | i :: is, tm, x => by
    rw [removeIds, removeIds_mem is]
    simp only [List.mem_filter, decide_eq_true_eq, List.mem_cons]
    constructor
    · rintro ⟨⟨hx, hne⟩, hnis⟩
      exact ⟨hx, fun hor => hor.elim hne hnis⟩
    · rintro ⟨hx, hnor⟩
      exact ⟨⟨hx, fun hEq => hnor (Or.inl hEq)⟩, fun hin => hnor (Or.inr hin)⟩

theorem addNotification_len (s : NotifState) (n : Notification) :
    (addNotification s n).notifications.length ≤ MAX_NOTIFICATIONS := by
  show ((evictLoop s.notifications s.timers).1 ++ [n]).length ≤ MAX_NOTIFICATIONS
  rw [evictLoop_eq]
  simp only [List.length_append, List.length_drop, List.length_cons, List.length_nil,
    MAX_NOTIFICATIONS]
  omega

theorem notifRun_bound_aux : ∀ (ops : List NotifOp) (s : NotifState),
    s.notifications.length ≤ MAX_NOTIFICATIONS →
    (List.foldl notifStep s ops).notifications.length ≤ MAX_NOTIFICATIONS
  | [], _, h => h
  | op :: ops, s, h => by
    show (List.foldl notifStep (notifStep s op) ops).notifications.length ≤ _
    refine notifRun_bound_aux ops (notifStep s op) ?_
    cases op with
    | add n => exact addNotification_len s n
    | remove id =>
      show (s.notifications.filter _).length ≤ _
      exact le_trans (List.length_filter_le _ _) h

/-- Claim C10: the notification list never holds more than
`MAX_NOTIFICATIONS = 5` entries under any sequence of `addNotification` /
`removeNotification` calls; when an add would exceed the maximum, the oldest
notifications are evicted from the front — their auto-dismiss timers
cancelled — before the new notification is appended at the end (and its own
timer registered). -/
theorem claim_C10 :
    (∀ ops : List NotifOp, (notifRun ops).notifications.length ≤ MAX_NOTIFICATIONS) ∧
    (∀ (s : NotifState) (n : Notification),
      (addNotification s n).notifications =
        s.notifications.drop (s.notifications.length + 1 - MAX_NOTIFICATIONS) ++ [n] ∧
      (addNotification s n).notifications.length ≤ MAX_NOTIFICATIONS ∧
      ∀ x : String, x ∈ (addNotification s n).timers ↔
        (x ∈ s.timers ∧
          x ∉ (s.notifications.take
            (s.notifications.length + 1 - MAX_NOTIFICATIONS)).map Notification.nid) ∨
        x = n.nid) := by
  refine ⟨?_, ?_⟩
  · intro ops
    exact notifRun_bound_aux ops _ (by simp [MAX_NOTIFICATIONS])
  · intro s n
    refine ⟨?_, addNotification_len s n, ?_⟩
    · show (evictLoop s.notifications s.timers).1 ++ [n] = _
      rw [evictLoop_eq]
    · intro x
      show x ∈ (evictLoop s.notifications s.timers).2 ++ [n.nid] ↔ _
      rw [evictLoop_eq]
      simp only [List.mem_append, List.mem_singleton]
      rw [removeIds_mem]
